import Mathlib

/-!
# k0s process supervisor (`pkg/supervisor/supervisor.go`)

A shallow embedding of the supervisor's PID-file reconciliation
(`maybeKillPidFile`, `killProcess`, `waitForTermination`, `shouldKillProcess`),
of the environment composer `getEnv` and of the administrative entry point
`Supervise`, followed by theorems about them.

Go strings are lists of characters.  Everything the supervisor obtains from
the operating system (answers of a process handle, the PID file, the parent
environment, timer races) is an explicit argument.
-/

namespace K0s

/-- Go strings, as lists of characters. -/
abbrev Str := List Char

/-! ## Errors -/

/-- The sentinel errors the supervisor tests for with `errors.Is`; every other
error is `other`. -/
inductive Sentinel where
  | ESRCH
  | ErrUnsupported
  | other (code : Nat)
  deriving DecidableEq, Repr

/-- A Go error value: a sentinel, possibly wrapped by `fmt.Errorf("...: %w", err)`. -/
inductive GoError where
  | base (e : Sentinel)
  | wrap (msg : String) (inner : GoError)
  deriving DecidableEq, Repr

/-- The test `errors.Is(err, target)` for a sentinel target: walks the chain of wrapped errors. -/
def GoError.is : GoError → Sentinel → Bool
  | .base e, t => decide (e = t)
  | .wrap _ inner, t => inner.is t

/-! ## Process handles -/

/-- The operations of the `procHandle` interface and of `openPID`, as recorded in a trace. -/
inductive Call where
  | openPID (pid : Int)
  | close
  | cmdline
  | environ
  | requestGracefulShutdown
  | kill
  deriving DecidableEq, Repr

/-- A process handle (`procHandle`).  The process behind a handle changes over
time, so every operation is answered as a function of the number of
operations performed before it. -/
structure procHandle where
  cmdline : Nat → Except GoError (List Str)
  environ : Nat → Except GoError (List Str)
  requestGracefulShutdown : Nat → Option GoError
  kill : Nat → Option GoError

/-- The trace of operations performed so far, oldest first. -/
abbrev Trace := List Call

/-- The constant `k0sManaged`. -/
def k0sManaged : Str := "_K0S_MANAGED=yes".toList

/-- The method `Supervisor.shouldKillProcess`, for a supervisor with the given `BinPath`.
Returns the pair `(bool, error)` and the extended trace. -/
def shouldKillProcess (binPath : Str) (ph : procHandle) (tr : Trace) :
    (Bool × Option GoError) × Trace :=
  -- only kill process if it has the expected cmd
  match ph.cmdline tr.length with
  | .error err =>
    if err.is .ESRCH then ((false, none), tr ++ [.cmdline])
    else ((false, some err), tr ++ [.cmdline])
  | .ok cmd =>
    if cmd.length > 0 ∧ cmd.head? ≠ some binPath then
      ((false, none), tr ++ [.cmdline])
    else
      let tr1 := tr ++ [.cmdline]
      -- only kill process if it has the _KOS_MANAGED env set
      match ph.environ tr1.length with
      | .error err =>
        if err.is .ESRCH then ((false, none), tr1 ++ [.environ])
        else ((false, some err), tr1 ++ [.environ])
      | .ok env =>
        if k0sManaged ∉ env then ((false, none), tr1 ++ [.environ])
        else ((true, none), tr1 ++ [.environ])

/-- The method `Supervisor.waitForTermination`.  The `select` loop races a
200 ms ticker against the `TimeoutStop` timer; `ticks` is the number of ticker
events the `select` delivers before it delivers the timer event. -/
def waitForTermination (binPath : Str) (ph : procHandle) :
    Nat → Trace → (Bool × Option GoError) × Trace
  | 0, tr => ((true, none), tr)
  | ticks + 1, tr =>
    match shouldKillProcess binPath ph tr with
    | ((shouldKill, err), tr1) =>
      if err ≠ none ∨ shouldKill = false then ((false, none), tr1)
      else waitForTermination binPath ph ticks tr1

/-- The method `Supervisor.killProcess`. -/
def killProcess (binPath : Str) (ticks : Nat) (ph : procHandle) (tr : Trace) :
    Option GoError × Trace :=
  match shouldKillProcess binPath ph tr with
  | ((shouldKill, err), tr1) =>
    if err ≠ none ∨ shouldKill = false then (err, tr1)
    else
      let tr2 := tr1 ++ [.requestGracefulShutdown]
      match ph.requestGracefulShutdown tr1.length with
      | some err =>
        if err.is .ESRCH then (none, tr2)
        else (some (.wrap "failed to request graceful termination" err), tr2)
      | none =>
        match waitForTermination binPath ph ticks tr2 with
        | ((terminate, err), tr3) =>
          if err ≠ none ∨ terminate = false then (err, tr3)
          else
            let tr4 := tr3 ++ [.kill]
            match ph.kill tr3.length with
            | some err =>
              if err.is .ESRCH then (none, tr4)
              else (some (.wrap "failed to kill" err), tr4)
            | none => (none, tr4)

/-- Whether the operation `c`, performed as the `t`-th operation on the handle, fails with an
error matching `syscall.ESRCH`. -/
def answeredESRCH (ph : procHandle) (c : Call) (t : Nat) : Bool :=
  match c with
  | .cmdline => match ph.cmdline t with
    | .error e => e.is .ESRCH
    | .ok _ => false
  | .environ => match ph.environ t with
    | .error e => e.is .ESRCH
    | .ok _ => false
  | .requestGracefulShutdown => match ph.requestGracefulShutdown t with
    | some e => e.is .ESRCH
    | none => false
  | .kill => match ph.kill t with
    | some e => e.is .ESRCH
    | none => false
  | _ => false

/-- The operations `ext`, performed from time `n` on, none of which fails with `ESRCH`. -/
def Clean (ph : procHandle) (n : Nat) (ext : List Call) : Prop :=
  ∀ j c, ext[j]? = some c → answeredESRCH ph c (n + j) = false

/-- The polls of `waitForTermination`, `k` of them, each finding the process eligible. -/
def polls (k : Nat) : List Call := (List.replicate k [Call.cmdline, Call.environ]).flatten

/-- The trace before the `k`-th eligibility poll of `killProcess` started on trace `tr`, when the
process was eligible at the initial check and at every earlier poll. -/
def pollTrace (tr : Trace) (k : Nat) : Trace :=
  tr ++ [.cmdline, .environ, .requestGracefulShutdown] ++ polls k

/-! ## Environment composer -/

/-- The function `strings.HasPrefix`. -/
def hasPrefix (s pre : Str) : Bool := pre.isPrefixOf s

/-- The function `strings.TrimPrefix`. -/
def trimPrefix (s pre : Str) : Str := if hasPrefix s pre then s.drop pre.length else s

/-- An upper-casing of ASCII letters.  It agrees with `strings.ToUpper` on ASCII strings and
stands for it in the samples, whose component names are ASCII; `strings.ToUpper` itself is an
argument of `getEnv`. -/
def asciiToUpper (s : Str) : Str := s.map Char.toUpper

/-- The call `strings.SplitN(e, "=", 2)`: `[e]` when `e` has no `'='`, otherwise the text before
the first `'='` and the text after it. -/
def splitN2 (e : Str) : List Str :=
  match e.span (fun c => c != '=') with
  | (k, []) => [k]
  | (k, _ :: v) => [k, v]

/-- The function `path.Clean` applied to the components of a slash-separated path: empty
components and `.` are dropped, `..` removes the component before it (at the root it is dropped,
at the start of a relative path it is kept). `acc` is the reversed list of components kept. -/
def cleanComponents (rooted : Bool) : List Str → List Str → List Str
  | [], acc => acc.reverse
  | c :: cs, acc =>
    if c = [] ∨ c = ['.'] then cleanComponents rooted cs acc
    else if c = ['.', '.'] then
      match acc with
      | [] => if rooted then cleanComponents rooted cs [] else cleanComponents rooted cs [c]
      | a :: acc1 =>
        if a = ['.', '.'] then cleanComponents rooted cs (c :: a :: acc1)
        else cleanComponents rooted cs acc1
    else cleanComponents rooted cs (c :: acc)

/-- The function `path.Clean`. -/
def pathClean (p : Str) : Str :=
  let rooted := p.head? = some '/'
  let body := List.intercalate ['/'] (cleanComponents rooted (p.splitOn '/') [])
  let out := if rooted then '/' :: body else body
  if out = [] then ['.'] else out

/-- The call `path.Join(a, b)`: the non-empty elements joined by a slash, cleaned; empty result
when all elements are empty. -/
def pathJoin (a b : Str) : Str :=
  match [a, b].filter (fun s => s ≠ []) with
  | [] => []
  | es => pathClean (List.intercalate ['/'] es)

/-- Modelled from the spec: `dir.PathListJoin` of `internal/pkg/dir`, which is not among the
sources; the spec says the binary directory "is prepended using the platform's path-list
separator". `sep` is `os.PathListSeparator`. -/
def PathListJoin (sep : Char) (a b : Str) : Str := a ++ sep :: b

/-- The inner loop of the standard library's `insertionSortLessFunc`: the element `x` moves left
past its left neighbour as long as `less x neighbour`.  `rev` is the slice to the left of `x`,
reversed; so is the result. -/
def sinkLeft (less : Str → Str → Bool) (x : Str) : List Str → List Str
  | [] => [x]
  | p :: r => if less x p then p :: sinkLeft less x r else x :: p :: r

/-- The standard library's `insertionSortLessFunc`, which is what `sort.Slice` runs on a slice of
at most 12 elements. -/
def insertionSort (xs : List Str) (less : Str → Str → Bool) : List Str :=
  (xs.foldl (fun rev x => sinkLeft less x rev) []).reverse

/-- The names of the proxy variables, which are always demoted. -/
def proxyNames : List Str := ["HTTP_PROXY".toList, "HTTPS_PROXY".toList, "NO_PROXY".toList]

/-- The component prefix of `getEnv`: `strings.ToUpper(component) + "_"`, with `toUpper` for
`strings.ToUpper`. -/
def componentPrefix (toUpper : Str → Str) (component : Str) : Str := toUpper component ++ ['_']

/-- Whether `getEnv` demotes an entry with key `k` (`shouldOverride`). -/
def demoted (pre : Str) (keepEnvPrefix : Bool) (k : Str) : Prop :=
  hasPrefix k pre = true ∧ (trimPrefix k pre ∈ proxyNames ∨ keepEnvPrefix = false)

instance (pre : Str) (keepEnvPrefix : Bool) (k : Str) : Decidable (demoted pre keepEnvPrefix k) :=
  by unfold demoted; infer_instance

/-- The key under which `getEnv` passes on an entry with key `k`: the key without the component
prefix when the entry is demoted, `k` itself otherwise. -/
def targetKey (pre : Str) (keepEnvPrefix : Bool) (k : Str) : Str :=
  if demoted pre keepEnvPrefix k then trimPrefix k pre else k

/-- The entry `getEnv` writes for key `k` and value `v`. -/
def emit (sep : Char) (dataDir k v : Str) : Str :=
  if k = "PATH".toList then "PATH=".toList ++ PathListJoin sep (pathJoin dataDir "bin".toList) v
  else k ++ '=' :: v

/-- The loop of `getEnv` over the sorted environment; `overrides` holds the keys of the map
`overrides`.  `none` is the panic of `kv[1]` on an entry without `'='`. -/
def getEnvLoop (sep : Char) (dataDir pre : Str) (keepEnvPrefix : Bool) :
    List Str → List Str → Option (List Str)
  | [], _ => some []
  | e :: rest, overrides =>
    match splitN2 e with
    | [k, v] =>
      -- if there is already a correspondent component specific env, skip it.
      if k ∈ overrides then getEnvLoop sep dataDir pre keepEnvPrefix rest overrides
      else if demoted pre keepEnvPrefix k then
        (getEnvLoop sep dataDir pre keepEnvPrefix rest (trimPrefix k pre :: overrides)).map
          (fun out => emit sep dataDir (trimPrefix k pre) v :: out)
      else
        (getEnvLoop sep dataDir pre keepEnvPrefix rest overrides).map
          (fun out => emit sep dataDir k v :: out)
    | _ => none

/-- The function `getEnv`.  `environ` is the result of `os.Environ()`, `sep` is
`os.PathListSeparator`, `toUpper` is `strings.ToUpper` and `sortSlice` is `sort.Slice`, called
with the comparison `strings.HasPrefix(env[i], componentPrefix)`. -/
def getEnv (sortSlice : List Str → (Str → Str → Bool) → List Str)
    (toUpper : Str → Str) (sep : Char)
    (environ : List Str) (dataDir component : Str) (keepEnvPrefix : Bool) :
    Option (List Str) :=
  let pre := componentPrefix toUpper component
  -- put the component specific env vars in the front.
  let env := sortSlice environ (fun a _ => hasPrefix a pre)
  (getEnvLoop sep dataDir pre keepEnvPrefix env []).map (fun out => k0sManaged :: out)

/-- The key of an environment entry: the text before the first `'='`. -/
def key (e : Str) : Str := e.takeWhile (fun c => c != '=')

/-! ## PID-file reconciliation -/

/-- The result of `os.ReadFile(s.PidFile)`. -/
inductive ReadFile where
  | notExist
  | failed (err : GoError)
  | content (data : Str)

/-- The call `strings.TrimSuffix(s, "\n")`. -/
def trimSuffixNewline (s : Str) : Str :=
  if s.getLast? = some '\n' then s.dropLast else s

/-- The error `strconv.ErrSyntax` (inside a `*NumError`). -/
def ErrSyntax : GoError := .base (.other 1)

/-- The error `strconv.ErrRange` (inside a `*NumError`). -/
def ErrRange : GoError := .base (.other 2)

/-- The digits loop of `strconv.Atoi`: the value of a run of ASCII digits, `none` at any other
character. -/
def parseDigits : List Char → Nat → Option Nat
  | [], n => some n
  | c :: cs, n => if c.isDigit then parseDigits cs (n * 10 + (c.toNat - '0'.toNat)) else none

/-- The body of `strconv.Atoi` after the sign: one or more decimal digits; a syntax error
otherwise, a range error outside `-2^63 .. 2^63-1` (64-bit `int`). -/
def atoiDigits (neg : Bool) (body : Str) : Except GoError Int :=
  if body = [] then .error ErrSyntax
  else
    match parseDigits body 0 with
    | none => .error ErrSyntax
    | some n =>
      if neg then (if n ≤ 2 ^ 63 then .ok (- (n : Int)) else .error ErrRange)
      else (if n < 2 ^ 63 then .ok (n : Int) else .error ErrRange)

/-- The function `strconv.Atoi` of the standard library: an optional sign `+` or `-`, then the
digits. -/
def Atoi (s : Str) : Except GoError Int :=
  match s with
  | '-' :: r => atoiDigits true r
  | '+' :: r => atoiDigits false r
  | _ => atoiDigits false s

/-- Whether `s` is a run of one or more decimal digits: the decimal representation of a
non-negative integer. -/
def isDecimal (s : Str) : Bool := !s.isEmpty && s.all Char.isDigit

/-- Whether `s` is an optional sign followed by one or more decimal digits. -/
def isSignedDecimal (s : Str) : Bool :=
  match s with
  | '-' :: r => isDecimal r
  | '+' :: r => isDecimal r
  | _ => isDecimal s

/-- The method `Supervisor.maybeKillPidFile`.  `read` is the result of reading the PID file and
`openPID` is the platform's `openPID`, which is not among the sources.  The handle's operations
are counted from the trace, which also records `openPID` and the deferred `Close`. -/
def maybeKillPidFile (binPath : Str) (ticks : Nat) (read : ReadFile)
    (openPID : Int → Except GoError procHandle) (tr : Trace) : Option GoError × Trace :=
  match read with
  | .notExist => (none, tr)
  | .failed err => (some (.wrap "failed to read PID file" err), tr)
  | .content pid =>
    match Atoi (trimSuffixNewline pid) with
    | .error err => (some (.wrap "failed to parse PID file" err), tr)
    | .ok p =>
      match openPID p with
      | .error err => (some (.wrap "cannot interact with PID from PID file" err),
          tr ++ [.openPID p])
      | .ok ph =>
        match killProcess binPath ticks ph (tr ++ [.openPID p]) with
        | (some err, tr1) => (some (.wrap "failed to kill PID from PID file" err),
            tr1 ++ [.close])
        | (none, tr1) => (none, tr1 ++ [.close])

/-! ## The supervisor -/

/-- How a piece of Go code ends: it returns, it panics, or it blocks forever. -/
inductive Outcome (α : Type) where
  | returned (a : α)
  | panic
  | blocked

/-- The fields of `exec.Cmd` the supervisor sets, and the PID of the started process. -/
structure Cmd where
  Path : Str
  Args : List Str
  Dir : Str
  Env : List Str
  Pid : Option Int

/-- The struct `Supervisor`.  Durations are in nanoseconds.  `log` is the logger's `component`
field when the interface value is non-nil; `cancel` is set when the cancel function is non-nil;
`done` is the channel, with whether it is closed.  `Stdin`, the identities `UID`/`GID` and the two
mutexes are left out. -/
structure Supervisor where
  Name : Str
  BinPath : Str
  RunDir : Str
  DataDir : Str
  Args : List Str
  PidFile : Str
  TimeoutStop : Nat
  TimeoutRespawn : Nat
  KeepEnvPrefix : Bool
  hasCleanBeforeFn : Bool
  cmd : Option Cmd
  done : Option Bool
  log : Option Str
  cancel : Option Unit

/-- The log levels the supervisor uses. -/
inductive Level where
  | debug
  | info
  | warn
  deriving DecidableEq, Repr

/-- What the supervisor does, in order. -/
inductive Event where
  | log (level : Level) (msg : String)
  | reconcile (c : Call)
  | cleanBefore
  | start (path : Str)
  | writePidFile (pid : Int)
  | removePidFile
  | requestGracefulShutdown
  | kill
  | sendStarted (err : Option GoError)
  | respawnDelay
  | cancel
  | closeDone
  deriving DecidableEq, Repr

/-- How the wait of `processWaitQuit` ends for one generation: the child exits by itself (with
the result of `cmd.Wait()`), or the context is cancelled first and the child exits after the
graceful-shutdown requests `first :: retries` (one more request after every expiry of
`TimeoutStop`), or the context is cancelled and the child never exits. -/
inductive WaitOutcome where
  | exited (err : Option GoError)
  | shutdown (first : Option GoError) (retries : List (Option GoError))
  | shutdownForever

/-- What one iteration of the supervising loop meets: the result of `CleanBeforeFn`, the parent
environment, the result of `cmd.Start()` (an error or the PID), how the wait ends, and whether
the context is cancelled during the respawn delay. -/
structure Generation where
  clean : Option GoError
  environ : List Str
  start : Except GoError Int
  wait : WaitOutcome
  respawnCanceled : Bool

/-- One request of the shutdown loop of `processWaitQuit`. -/
def shutdownRequest (r : Option GoError) : List Event :=
  [.log .info "Requesting graceful shutdown", .requestGracefulShutdown] ++
    (match r with
     | some _ => [.log .warn "Failed to request graceful shutdown"]
     | none => [])

/-- The method `Supervisor.processWaitQuit`: whether shutdown is requested, and the events;
`none` when it never returns.  The deferred removal of the PID file comes last. -/
def processWaitQuit (w : WaitOutcome) : Option Bool × List Event :=
  match w with
  | .shutdown first retries =>
    (some true, ((first :: retries).map shutdownRequest).flatten ++ [.removePidFile])
  | .shutdownForever => (none, [])
  | .exited (some _) => (some false, [.log .warn "Failed to wait for process", .removePidFile])
  | .exited none => (some false, [.log .warn "Process exited", .removePidFile])

/-- How far the goroutine of `Supervise` got. -/
inductive LoopEnd where
  | firstStartFailed
  | shutdown
  | respawnCanceled
  | panicked
  | stuck
  | running
  deriving DecidableEq, Repr

/-- The state of the goroutine after the generations given to it. -/
structure LoopResult where
  started : Option (Option GoError)
  ending : LoopEnd
  restarts : Nat
  cmd : Option Cmd
  events : List Event

/-- What the locked part of one iteration yields (from `s.mutex.Lock()` to `s.mutex.Unlock()`):
a panic of `getEnv`, an error of `CleanBeforeFn` or of `cmd.Start()`, or a started process. -/
inductive Attempt where
  | panicked (ev : List Event)
  | failed (err : GoError) (cmd : Option Cmd) (ev : List Event)
  | started (c : Cmd) (pid : Int) (ev : List Event)

/-- The locked part of one iteration of the supervising loop: the optional clean-up, then the
command with the environment of `getEnv`, then `cmd.Start()`.  `cmd` is the field `s.cmd`. -/
def attempt (sortSlice : List Str → (Str → Str → Bool) → List Str)
    (toUpper : Str → Str) (sep : Char)
    (s : Supervisor) (g : Generation) (cmd : Option Cmd) : Attempt :=
  let evClean := if s.hasCleanBeforeFn then [Event.cleanBefore] else []
  match (if s.hasCleanBeforeFn then g.clean else none) with
  | some err =>
    .failed err cmd (evClean ++ [.log .warn "Failed to clean before running the process"])
  | none =>
    match getEnv sortSlice toUpper sep g.environ s.DataDir s.Name s.KeepEnvPrefix with
    | none => .panicked evClean
    | some env =>
      let c : Cmd := { Path := s.BinPath, Args := s.Args, Dir := s.DataDir, Env := env,
                       Pid := none }
      match g.start with
      | .error err => .failed err (some c) (evClean ++ [.start s.BinPath])
      | .ok pid => .started { c with Pid := some pid } pid (evClean ++ [.start s.BinPath])

/-- The events of the respawn delay: `canceled` tells which case of the `select` is taken. -/
def respawnEvents (canceled : Bool) : List Event :=
  [.log .info "respawning", .respawnDelay,
    .log .debug (if canceled then "respawn canceled" else "respawning")]

/-- The loop of the goroutine of `Supervise`, run on the generations `gens`.  `restarts` is the
loop's counter, `cmd` the field `s.cmd`, `started` what was sent on the channel `started` so far
and `ev` the events so far.  When `gens` is used up the goroutine is still `running`. -/
def superviseLoop (sortSlice : List Str → (Str → Str → Bool) → List Str)
    (toUpper : Str → Str) (sep : Char)
    (s : Supervisor) :
    List Generation → Nat → Option Cmd → Option (Option GoError) → List Event → LoopResult
  | [], restarts, cmd, started, ev =>
    { started := started, ending := .running, restarts := restarts, cmd := cmd, events := ev }
  | g :: gs, restarts, cmd, started, ev =>
    match attempt sortSlice toUpper sep s g cmd with
    | .panicked ev1 =>
      { started := started, ending := .panicked, restarts := restarts, cmd := cmd,
        events := ev ++ ev1 }
    | .failed err cmd1 ev1 =>
      if restarts = 0 then
        { started := some (some err), ending := .firstStartFailed, restarts := restarts,
          cmd := cmd1,
          events := ev ++ ev1 ++ [.log .warn "Failed to start", .sendStarted (some err)] }
      else if g.respawnCanceled then
        { started := started, ending := .respawnCanceled, restarts := restarts, cmd := cmd1,
          events := ev ++ ev1 ++ [.log .warn "Failed to start"] ++ respawnEvents true }
      else
        superviseLoop sortSlice toUpper sep s gs restarts cmd1 started
          (ev ++ ev1 ++ [.log .warn "Failed to start"] ++ respawnEvents false)
    | .started c pid ev1 =>
      let started1 := if restarts = 0 then some none else started
      let ev2 := ev ++ ev1 ++ [.writePidFile pid] ++
        (if restarts = 0 then [.log .info "Started successfully, go nuts", .sendStarted none]
          else [.log .info "Restarted"])
      match processWaitQuit g.wait with
      | (none, ev3) =>
        { started := started1, ending := .stuck, restarts := restarts + 1, cmd := some c,
          events := ev2 ++ ev3 }
      | (some true, ev3) =>
        { started := started1, ending := .shutdown, restarts := restarts + 1, cmd := some c,
          events := ev2 ++ ev3 }
      | (some false, ev3) =>
        if g.respawnCanceled then
          { started := started1, ending := .respawnCanceled, restarts := restarts + 1,
            cmd := some c, events := ev2 ++ ev3 ++ respawnEvents true }
        else
          superviseLoop sortSlice toUpper sep s gs (restarts + 1) (some c) started1
            (ev2 ++ ev3 ++ respawnEvents false)

/-- Whether the goroutine has returned (and closed `done`). -/
def LoopEnd.returned (e : LoopEnd) : Bool :=
  match e with
  | .firstStartFailed => true
  | .shutdown => true
  | .respawnCanceled => true
  | _ => false

/-- What `Supervise` meets outside the supervisor: `sort.Slice`, `strings.ToUpper`,
`os.PathListSeparator`, the PID file, `openPID`, the number of ticks of `waitForTermination`, and the generations. -/
structure World where
  sortSlice : List Str → (Str → Str → Bool) → List Str
  toUpper : Str → Str
  pathListSeparator : Char
  pidFile : ReadFile
  openPID : Int → Except GoError procHandle
  ticks : Nat
  gens : List Generation

/-- What a call of `Supervise` that returns leaves behind: the error returned, the supervisor,
the events, and how far the goroutine got on the generations of the world (`none` when no
goroutine was launched). -/
structure SuperviseResult where
  err : Option GoError
  s : Supervisor
  events : List Event
  loop : Option LoopEnd

/-- The default of `TimeoutStop` and `TimeoutRespawn`: `5 * time.Second`. -/
def defaultTimeout : Nat := 5 * 1000000000

/-- The first lines of `Supervise` on a supervisor that is not started: the logger, the path of
the PID file and the default timeouts. -/
def prepare (s : Supervisor) : Supervisor :=
  { s with
    log := some s.Name
    PidFile := pathJoin s.RunDir s.Name ++ ".pid".toList
    TimeoutStop := if s.TimeoutStop = 0 then defaultTimeout else s.TimeoutStop
    TimeoutRespawn := if s.TimeoutRespawn = 0 then defaultTimeout else s.TimeoutRespawn }

/-- The error of `maybeKillPidFile` that makes `Supervise` return: any error that does not match
`errors.ErrUnsupported`. -/
def fatalError (err : Option GoError) : Option GoError :=
  match err with
  | some e => if e.is .ErrUnsupported then none else some e
  | none => none

/-- The end of `Supervise`: the context and the channels, the goroutine, and the receive from
`started`.  `s1` is the prepared supervisor and `ev` the events so far.  The state and the events
are those after the goroutine has run through the generations of the world.  When nothing is
sent on `started`, `Supervise` blocks, or the program panics with the goroutine. -/
def launch (w : World) (s1 : Supervisor) (ev : List Event) : Outcome SuperviseResult :=
  let s2 : Supervisor := { s1 with cancel := some (), done := some false }
  let lr := superviseLoop w.sortSlice w.toUpper w.pathListSeparator s2 w.gens 0 s2.cmd none
    (ev ++ [.log .info "Starting to supervise"])
  match lr.started with
  | none => if lr.ending = .panicked then .panic else .blocked
  | some v =>
    .returned
      { err := v
        s := { s2 with cmd := lr.cmd, done := some lr.ending.returned }
        events := lr.events ++ (if lr.ending.returned then [Event.closeDone] else [])
        loop := some lr.ending }

/-- The method `Supervisor.Supervise`. -/
def Supervise (w : World) (s : Supervisor) : Outcome SuperviseResult :=
  -- check if it is already started
  if s.cancel ≠ none then
    match s.log with
    | none => .panic
    | some _ =>
      .returned { err := none, s := s, events := [.log .warn "Already started"], loop := none }
  else
    let s1 := prepare s
    let rec1 := maybeKillPidFile s1.BinPath w.ticks w.pidFile w.openPID []
    match fatalError rec1.1 with
    | some err =>
      .returned { err := some err, s := s1, events := rec1.2.map Event.reconcile, loop := none }
    | none =>
      launch w s1 (rec1.2.map Event.reconcile ++
        (match rec1.1 with
         | some _ => [Event.log .warn "Old process cannot be terminated"]
         | none => []))

/-- Where the goroutine is when `Stop` cancels the context: it has returned, or it waits in
`processWaitQuit` for a child that then behaves as given, or it sleeps in the respawn delay. -/
inductive LoopPhase where
  | exited
  | waiting (w : WaitOutcome)
  | sleeping

/-- The method `Supervisor.Stop`, with the phase of the goroutine. -/
def Stop (s : Supervisor) (phase : LoopPhase) : Outcome (Supervisor × List Event) :=
  if s.cancel = none ∨ s.log = none then
    match s.log with
    | none => .panic
    | some _ => .returned (s, [.log .warn "Not started"])
  else
    let ev : List Event := [.log .debug "Sending stop message", .cancel,
      .log .debug "Waiting for stopping is done"]
    let s1 : Supervisor := { s with cancel := none }
    match s.done with
    | none => .returned (s1, ev)
    | some _ =>
      match phase with
      | .exited => .returned ({ s1 with done := some true }, ev)
      | .sleeping =>
        .returned ({ s1 with done := some true },
          ev ++ [.log .debug "respawn canceled", .closeDone])
      | .waiting w =>
        match processWaitQuit w with
        | (none, _) => .blocked
        | (some true, ev2) => .returned ({ s1 with done := some true }, ev ++ ev2 ++ [.closeDone])
        | (some false, ev2) =>
          .returned ({ s1 with done := some true },
            ev ++ ev2 ++ respawnEvents true ++ [.closeDone])

/-- A supervisor as its owner constructs it, before any call of `Supervise`. -/
def freshSupervisor (name binPath runDir dataDir : Str) : Supervisor :=
  { Name := name, BinPath := binPath, RunDir := runDir, DataDir := dataDir, Args := [],
    PidFile := [], TimeoutStop := 0, TimeoutRespawn := 0, KeepEnvPrefix := false,
    hasCleanBeforeFn := false, cmd := none, done := none, log := none, cancel := none }

/-- A sample supervisor, never started. -/
def sampleSupervisor : Supervisor :=
  freshSupervisor "etcd".toList "/var/lib/k0s/bin/etcd".toList "/run/k0s".toList "/var/lib/k0s".toList

/-! ## Sample handles -/

/-- A sample `BinPath`. -/
def sampleBin : Str := "/var/lib/k0s/bin/etcd".toList

/-- A handle that answers every operation the same way at all times. -/
def constHandle (cmd env : List Str) : procHandle where
  cmdline := fun _ => .ok cmd
  environ := fun _ => .ok env
  requestGracefulShutdown := fun _ => none
  kill := fun _ => none

/-- A foreign process: another binary. -/
def foreignHandle : procHandle :=
  constHandle ["/usr/bin/sleep".toList, "60".toList] ["HOME=/root".toList]

/-- A process with an empty command line whose environment carries the marker. -/
def emptyCmdlineHandle : procHandle := constHandle [] [k0sManaged]

/-- A managed process that ignores the graceful termination request. -/
def stubbornHandle : procHandle := constHandle [sampleBin] ["HOME=/root".toList, k0sManaged]

/-- A managed process that is gone once graceful termination was requested: from the fourth
operation on, every query fails with `ESRCH`. -/
def obedientHandle : procHandle where
  cmdline := fun t => if t < 3 then .ok [sampleBin] else .error (.base .ESRCH)
  environ := fun t => if t < 3 then .ok [k0sManaged] else .error (.base .ESRCH)
  requestGracefulShutdown := fun _ => none
  kill := fun _ => some (.base .ESRCH)

/-! ## Sample supervisors and worlds -/

/-- A sample supervisor in the started state, as `Supervise` leaves it. -/
def startedSupervisor : Supervisor :=
  { sampleSupervisor with
    PidFile := "/run/k0s/etcd.pid".toList
    TimeoutStop := defaultTimeout
    TimeoutRespawn := defaultTimeout
    cmd := some { Path := sampleBin, Args := [], Dir := "/var/lib/k0s".toList,
                  Env := [k0sManaged], Pid := some 4242 }
    done := some false
    log := some "etcd".toList
    cancel := some () }

/-- A generation whose process starts and later exits by itself. -/
def genOk : Generation :=
  { clean := none, environ := ["PATH=/usr/bin".toList], start := .ok 4242,
    wait := .exited none, respawnCanceled := false }

/-- A generation whose `cmd.Start()` fails. -/
def genStartFails : Generation := { genOk with start := .error (.base (.other 2)) }

/-- A generation whose `CleanBeforeFn` fails. -/
def genCleanFails : Generation := { genOk with clean := some (.base (.other 5)) }

/-- A world without PID file. -/
def sampleWorld (gens : List Generation) : World :=
  { sortSlice := insertionSort, toUpper := asciiToUpper, pathListSeparator := ':', pidFile := .notExist,
    openPID := fun _ => .error (.base .ESRCH), ticks := 2, gens := gens }

/-- A managed process whose graceful-termination request fails as unsupported. -/
def unsupportedKillHandle : procHandle :=
  { stubbornHandle with requestGracefulShutdown := fun _ => some (.base .ErrUnsupported) }

/-- A world whose PID file points at `unsupportedKillHandle`. -/
def unsupportedKillWorld : World :=
  { sampleWorld [genOk] with
    pidFile := .content "4000\n".toList
    openPID := fun _ => .ok unsupportedKillHandle }

/-- A started supervisor with a `CleanBeforeFn`. -/
def cleaningSupervisor : Supervisor := { startedSupervisor with hasCleanBeforeFn := true }

/-! ## Lemmas on the kill sequence -/

theorem clean_nil (ph : procHandle) (n : Nat) : Clean ph n [] := by
  intro j c h; simp at h

theorem clean_append {ph : procHandle} {n : Nat} {a b : List Call}
    (ha : Clean ph n a) (hb : Clean ph (n + a.length) b) : Clean ph n (a ++ b) := by
  intro j c h
  by_cases hj : j < a.length
  · rw [List.getElem?_append_left hj] at h
    exact ha j c h
  · have hj2 : a.length ≤ j := Nat.le_of_not_lt hj
    rw [List.getElem?_append_right hj2] at h
    have := hb (j - a.length) c h
    have e : n + a.length + (j - a.length) = n + j := by omega
    rw [e] at this
    exact this

theorem shouldKillProcess_cmdline_esrch {binPath : Str} {ph : procHandle} {tr : Trace}
    {e : GoError} (hc : ph.cmdline tr.length = .error e) (he : e.is .ESRCH = true) :
    shouldKillProcess binPath ph tr = ((false, none), tr ++ [.cmdline]) := by
  rw [shouldKillProcess, hc]; simp only []; rw [if_pos he]

theorem shouldKillProcess_cmdline_err {binPath : Str} {ph : procHandle} {tr : Trace}
    {e : GoError} (hc : ph.cmdline tr.length = .error e) (he : ¬ e.is .ESRCH = true) :
    shouldKillProcess binPath ph tr = ((false, some e), tr ++ [.cmdline]) := by
  rw [shouldKillProcess, hc]; simp only []; rw [if_neg he]

theorem shouldKillProcess_cmdline_differs {binPath : Str} {ph : procHandle} {tr : Trace}
    {cmd : List Str} (hc : ph.cmdline tr.length = .ok cmd)
    (hg : cmd.length > 0 ∧ cmd.head? ≠ some binPath) :
    shouldKillProcess binPath ph tr = ((false, none), tr ++ [.cmdline]) := by
  rw [shouldKillProcess, hc]; simp only []; rw [if_pos hg]

theorem shouldKillProcess_environ_esrch {binPath : Str} {ph : procHandle} {tr : Trace}
    {cmd : List Str} {e : GoError} (hc : ph.cmdline tr.length = .ok cmd)
    (hg : ¬ (cmd.length > 0 ∧ cmd.head? ≠ some binPath))
    (hen : ph.environ (tr.length + 1) = .error e) (he : e.is .ESRCH = true) :
    shouldKillProcess binPath ph tr = ((false, none), tr ++ [.cmdline, .environ]) := by
  have hlen : (tr ++ [Call.cmdline]).length = tr.length + 1 := by simp
  rw [shouldKillProcess, hc]; simp only []
  rw [if_neg hg, hlen, hen]; simp only []; rw [if_pos he]; simp

theorem shouldKillProcess_environ_err {binPath : Str} {ph : procHandle} {tr : Trace}
    {cmd : List Str} {e : GoError} (hc : ph.cmdline tr.length = .ok cmd)
    (hg : ¬ (cmd.length > 0 ∧ cmd.head? ≠ some binPath))
    (hen : ph.environ (tr.length + 1) = .error e) (he : ¬ e.is .ESRCH = true) :
    shouldKillProcess binPath ph tr = ((false, some e), tr ++ [.cmdline, .environ]) := by
  have hlen : (tr ++ [Call.cmdline]).length = tr.length + 1 := by simp
  rw [shouldKillProcess, hc]; simp only []
  rw [if_neg hg, hlen, hen]; simp only []; rw [if_neg he]; simp

theorem shouldKillProcess_unmarked {binPath : Str} {ph : procHandle} {tr : Trace}
    {cmd env : List Str} (hc : ph.cmdline tr.length = .ok cmd)
    (hg : ¬ (cmd.length > 0 ∧ cmd.head? ≠ some binPath))
    (hen : ph.environ (tr.length + 1) = .ok env) (hm : k0sManaged ∉ env) :
    shouldKillProcess binPath ph tr = ((false, none), tr ++ [.cmdline, .environ]) := by
  have hlen : (tr ++ [Call.cmdline]).length = tr.length + 1 := by simp
  rw [shouldKillProcess, hc]; simp only []
  rw [if_neg hg, hlen, hen]; simp only []; rw [if_pos hm]; simp

theorem shouldKillProcess_marked {binPath : Str} {ph : procHandle} {tr : Trace}
    {cmd env : List Str} (hc : ph.cmdline tr.length = .ok cmd)
    (hg : ¬ (cmd.length > 0 ∧ cmd.head? ≠ some binPath))
    (hen : ph.environ (tr.length + 1) = .ok env) (hm : k0sManaged ∈ env) :
    shouldKillProcess binPath ph tr = ((true, none), tr ++ [.cmdline, .environ]) := by
  have hlen : (tr ++ [Call.cmdline]).length = tr.length + 1 := by simp
  rw [shouldKillProcess, hc]; simp only []
  rw [if_neg hg, hlen, hen]; simp only []; rw [if_neg (not_not.mpr hm)]; simp

theorem clean_cmdline_environ {ph : procHandle} {n : Nat} {cmd env : List Str}
    (hc : ph.cmdline n = .ok cmd) (hen : ph.environ (n + 1) = .ok env) :
    Clean ph n [.cmdline, .environ] := by
  intro j c hj
  match j, hj with
  | 0, hj => simp at hj; subst hj; simp [answeredESRCH, hc]
  | 1, hj => simp at hj; subst hj; simp [answeredESRCH, hen]
  | j + 2, hj => simp at hj

theorem shouldKillProcess_true {binPath : Str} {ph : procHandle} {tr : Trace}
    (h : (shouldKillProcess binPath ph tr).1.1 = true) :
    shouldKillProcess binPath ph tr = ((true, none), tr ++ [.cmdline, .environ]) ∧
      Clean ph tr.length [.cmdline, .environ] ∧
      ∃ cmd env, ph.cmdline tr.length = .ok cmd ∧ (cmd = [] ∨ cmd.head? = some binPath) ∧
        ph.environ (tr.length + 1) = .ok env ∧ k0sManaged ∈ env := by
  cases hc : ph.cmdline tr.length with
  | error e =>
    by_cases he : e.is .ESRCH = true
    · rw [shouldKillProcess_cmdline_esrch hc he] at h; simp at h
    · rw [shouldKillProcess_cmdline_err hc he] at h; simp at h
  | ok cmd =>
    by_cases hg : cmd.length > 0 ∧ cmd.head? ≠ some binPath
    · rw [shouldKillProcess_cmdline_differs hc hg] at h; simp at h
    · cases hen : ph.environ (tr.length + 1) with
      | error e =>
        by_cases he : e.is .ESRCH = true
        · rw [shouldKillProcess_environ_esrch hc hg hen he] at h; simp at h
        · rw [shouldKillProcess_environ_err hc hg hen he] at h; simp at h
      | ok env =>
        by_cases hm : k0sManaged ∈ env
        · refine ⟨shouldKillProcess_marked hc hg hen hm, clean_cmdline_environ hc hen,
            cmd, env, rfl, ?_, rfl, hm⟩
          cases cmd with
          | nil => left; rfl
          | cons a l =>
            right
            by_contra hne
            exact hg ⟨by simp, hne⟩
        · rw [shouldKillProcess_unmarked hc hg hen hm] at h; simp at h

/-- Whatever it answers, `shouldKillProcess` only queries the command line and the environment;
when it returns an error, no query failed with `ESRCH`. -/
theorem shouldKillProcess_trace (binPath : Str) (ph : procHandle) (tr : Trace) :
    ∃ ext, (shouldKillProcess binPath ph tr).2 = tr ++ ext ∧
      (∀ c ∈ ext, c = Call.cmdline ∨ c = Call.environ) ∧
      ((shouldKillProcess binPath ph tr).1.2 ≠ none → Clean ph tr.length ext) := by
  cases hc : ph.cmdline tr.length with
  | error e =>
    by_cases he : e.is .ESRCH = true
    · rw [shouldKillProcess_cmdline_esrch hc he]
      exact ⟨[.cmdline], rfl, by simp, by simp⟩
    · rw [shouldKillProcess_cmdline_err hc he]
      refine ⟨[.cmdline], rfl, by simp, fun _ => ?_⟩
      intro j c hj
      match j, hj with
      | 0, hj => simp at hj; subst hj; simpa [answeredESRCH, hc] using he
      | j + 1, hj => simp at hj
  | ok cmd =>
    by_cases hg : cmd.length > 0 ∧ cmd.head? ≠ some binPath
    · rw [shouldKillProcess_cmdline_differs hc hg]
      exact ⟨[.cmdline], rfl, by simp, by simp⟩
    · cases hen : ph.environ (tr.length + 1) with
      | error e =>
        by_cases he : e.is .ESRCH = true
        · rw [shouldKillProcess_environ_esrch hc hg hen he]
          exact ⟨[.cmdline, .environ], rfl, by simp, by simp⟩
        · rw [shouldKillProcess_environ_err hc hg hen he]
          refine ⟨[.cmdline, .environ], rfl, by simp, fun _ => ?_⟩
          intro j c hj
          match j, hj with
          | 0, hj => simp at hj; subst hj; simp [answeredESRCH, hc]
          | 1, hj => simp at hj; subst hj; simpa [answeredESRCH, hen] using he
          | j + 2, hj => simp at hj
      | ok env =>
        by_cases hm : k0sManaged ∈ env
        · rw [shouldKillProcess_marked hc hg hen hm]
          exact ⟨[.cmdline, .environ], rfl, by simp, by simp⟩
        · rw [shouldKillProcess_unmarked hc hg hen hm]
          exact ⟨[.cmdline, .environ], rfl, by simp, by simp⟩

theorem polls_succ (k : Nat) : polls (k + 1) = [Call.cmdline, Call.environ] ++ polls k := by
  simp [polls, List.replicate_succ]

theorem waitForTermination_true {binPath : Str} {ph : procHandle} :
    ∀ (ticks : Nat) (tr : Trace), (waitForTermination binPath ph ticks tr).1.1 = true →
      waitForTermination binPath ph ticks tr = ((true, none), tr ++ polls ticks) ∧
      Clean ph tr.length (polls ticks) ∧
      ∀ k, k < ticks → (shouldKillProcess binPath ph (tr ++ polls k)).1.1 = true := by
  intro ticks
  induction ticks with
  | zero =>
    intro tr _
    refine ⟨by simp [waitForTermination, polls], by simpa [polls] using clean_nil ph _, ?_⟩
    intro k hk; omega
  | succ n ih =>
    intro tr h
    by_cases hs : (shouldKillProcess binPath ph tr).1.1 = true
    · obtain ⟨heq, hcl, _⟩ := shouldKillProcess_true hs
      have hstep : waitForTermination binPath ph (n + 1) tr =
          waitForTermination binPath ph n (tr ++ [.cmdline, .environ]) := by
        rw [waitForTermination, heq]; simp
      rw [hstep] at h ⊢
      obtain ⟨e1, c1, a1⟩ := ih _ h
      refine ⟨?_, ?_, ?_⟩
      · rw [e1, polls_succ]; simp
      · rw [polls_succ]
        exact clean_append hcl (by simpa using c1)
      · intro k hk
        cases k with
        | zero => simpa [polls] using hs
        | succ k =>
          have := a1 k (by omega)
          rw [polls_succ]
          simpa using this
    · exfalso
      have hf : (shouldKillProcess binPath ph tr).1.1 = false := by simpa using hs
      rw [waitForTermination] at h
      rcases hr : shouldKillProcess binPath ph tr with ⟨⟨b, err⟩, tr1⟩
      rw [hr] at h hf
      simp only [] at h hf
      rw [if_pos (Or.inr hf)] at h
      simp at h

theorem waitForTermination_trace {binPath : Str} {ph : procHandle} :
    ∀ (ticks : Nat) (tr : Trace), ∃ ext,
      (waitForTermination binPath ph ticks tr).2 = tr ++ ext ∧
      (∀ c ∈ ext, c = Call.cmdline ∨ c = Call.environ) ∧
      (waitForTermination binPath ph ticks tr).1.2 = none := by
  intro ticks
  induction ticks with
  | zero => intro tr; exact ⟨[], by simp [waitForTermination], by simp, by simp [waitForTermination]⟩
  | succ n ih =>
    intro tr
    obtain ⟨ext, hext, hmem, _⟩ := shouldKillProcess_trace binPath ph tr
    rcases hr : shouldKillProcess binPath ph tr with ⟨⟨b, err⟩, tr1⟩
    rw [hr] at hext
    simp only [] at hext
    rw [waitForTermination, hr]
    simp only []
    by_cases hcond : err ≠ none ∨ b = false
    · rw [if_pos hcond]
      exact ⟨ext, hext, hmem, rfl⟩
    · rw [if_neg hcond]
      obtain ⟨ext2, h2, hmem2, hn2⟩ := ih tr1
      refine ⟨ext ++ ext2, ?_, ?_, hn2⟩
      · rw [h2, hext, List.append_assoc]
      · intro c hc
        rcases List.mem_append.mp hc with h | h
        · exact hmem c h
        · exact hmem2 c h

theorem waitForTermination_of_eligible {binPath : Str} {ph : procHandle} :
    ∀ (ticks : Nat) (tr : Trace),
      (∀ k, k < ticks → (shouldKillProcess binPath ph (tr ++ polls k)).1.1 = true) →
      (waitForTermination binPath ph ticks tr).1.1 = true := by
  intro ticks
  induction ticks with
  | zero => intro tr _; simp [waitForTermination]
  | succ n ih =>
    intro tr h
    have hs : (shouldKillProcess binPath ph tr).1.1 = true := by
      simpa [polls] using h 0 (by omega)
    obtain ⟨heq, _, _⟩ := shouldKillProcess_true hs
    have hstep : waitForTermination binPath ph (n + 1) tr =
        waitForTermination binPath ph n (tr ++ [.cmdline, .environ]) := by
      rw [waitForTermination, heq]; simp
    rw [hstep]
    apply ih
    intro k hk
    have := h (k + 1) (by omega)
    rw [polls_succ] at this
    simpa using this

theorem killProcess_stop {binPath : Str} {ticks : Nat} {ph : procHandle} {tr tr1 : Trace}
    {b : Bool} {err : Option GoError}
    (hs : shouldKillProcess binPath ph tr = ((b, err), tr1)) (hc : err ≠ none ∨ b = false) :
    killProcess binPath ticks ph tr = (err, tr1) := by
  rw [killProcess, hs]; simp only []; rw [if_pos hc]

theorem killProcess_graceful_esrch {binPath : Str} {ticks : Nat} {ph : procHandle}
    {tr tr1 : Trace} {e : GoError}
    (hs : shouldKillProcess binPath ph tr = ((true, none), tr1))
    (hg : ph.requestGracefulShutdown tr1.length = some e) (he : e.is .ESRCH = true) :
    killProcess binPath ticks ph tr = (none, tr1 ++ [.requestGracefulShutdown]) := by
  rw [killProcess, hs]; simp only []; rw [if_neg (by simp), hg]; simp only []; rw [if_pos he]

theorem killProcess_graceful_err {binPath : Str} {ticks : Nat} {ph : procHandle}
    {tr tr1 : Trace} {e : GoError}
    (hs : shouldKillProcess binPath ph tr = ((true, none), tr1))
    (hg : ph.requestGracefulShutdown tr1.length = some e) (he : ¬ e.is .ESRCH = true) :
    killProcess binPath ticks ph tr =
      (some (.wrap "failed to request graceful termination" e),
        tr1 ++ [.requestGracefulShutdown]) := by
  rw [killProcess, hs]; simp only []; rw [if_neg (by simp), hg]; simp only []; rw [if_neg he]

theorem killProcess_wait_stop {binPath : Str} {ticks : Nat} {ph : procHandle}
    {tr tr1 tr3 : Trace} {t : Bool} {werr : Option GoError}
    (hs : shouldKillProcess binPath ph tr = ((true, none), tr1))
    (hg : ph.requestGracefulShutdown tr1.length = none)
    (hw : waitForTermination binPath ph ticks (tr1 ++ [.requestGracefulShutdown]) =
      ((t, werr), tr3))
    (hc : werr ≠ none ∨ t = false) :
    killProcess binPath ticks ph tr = (werr, tr3) := by
  rw [killProcess, hs]; simp only []; rw [if_neg (by simp), hg]; simp only []
  rw [hw]; simp only []; rw [if_pos hc]

theorem killProcess_kill {binPath : Str} {ticks : Nat} {ph : procHandle}
    {tr tr1 tr3 : Trace}
    (hs : shouldKillProcess binPath ph tr = ((true, none), tr1))
    (hg : ph.requestGracefulShutdown tr1.length = none)
    (hw : waitForTermination binPath ph ticks (tr1 ++ [.requestGracefulShutdown]) =
      ((true, none), tr3)) :
    (killProcess binPath ticks ph tr).2 = tr3 ++ [.kill] ∧
    (killProcess binPath ticks ph tr).1 =
      match ph.kill tr3.length with
      | some e => if e.is .ESRCH then none else some (.wrap "failed to kill" e)
      | none => none := by
  rw [killProcess, hs]; simp only []; rw [if_neg (by simp), hg]; simp only []
  rw [hw]; simp only []; rw [if_neg (by simp)]
  cases hk : ph.kill tr3.length with
  | none => simp
  | some e =>
    by_cases he : e.is .ESRCH = true
    · simp [he]
    · simp [he]

/-- When `killProcess` returns an error, none of the operations it performed failed with
`ESRCH`. -/
theorem killProcess_error_clean (binPath : Str) (ticks : Nat) (ph : procHandle) (tr : Trace)
    (h : (killProcess binPath ticks ph tr).1 ≠ none) :
    ∃ ext, (killProcess binPath ticks ph tr).2 = tr ++ ext ∧ Clean ph tr.length ext := by
  by_cases hs : (shouldKillProcess binPath ph tr).1.1 = true
  · obtain ⟨heq, hcl, _⟩ := shouldKillProcess_true hs
    have hlen : (tr ++ [Call.cmdline, Call.environ]).length = tr.length + 2 := by simp
    cases hg : ph.requestGracefulShutdown (tr ++ [Call.cmdline, Call.environ]).length with
    | some e =>
      by_cases he : e.is .ESRCH = true
      · rw [killProcess_graceful_esrch heq hg he] at h; simp at h
      · rw [killProcess_graceful_err heq hg he]
        refine ⟨[.cmdline, .environ] ++ [.requestGracefulShutdown], by simp, ?_⟩
        refine clean_append hcl ?_
        intro j c hj
        match j, hj with
        | 0, hj =>
          simp at hj; subst hj
          rw [hlen] at hg
          simpa [answeredESRCH, hg] using he
        | j + 1, hj => simp at hj
    | none =>
      rcases hw : waitForTermination binPath ph ticks
        (tr ++ [Call.cmdline, Call.environ] ++ [.requestGracefulShutdown]) with ⟨⟨t, werr⟩, tr3⟩
      obtain ⟨_, _, _, hnone⟩ := @waitForTermination_trace binPath ph ticks
        (tr ++ [Call.cmdline, Call.environ] ++ [.requestGracefulShutdown])
      rw [hw] at hnone
      simp only [] at hnone
      subst hnone
      cases t with
      | false =>
        rw [killProcess_wait_stop heq hg hw (Or.inr rfl)] at h
        simp at h
      | true =>
        obtain ⟨hw2, hclw, _⟩ := waitForTermination_true ticks _ (by rw [hw])
        rw [hw] at hw2
        have htr3 : tr3 = tr ++ [Call.cmdline, Call.environ] ++ [.requestGracefulShutdown]
            ++ polls ticks := by
          have := congrArg Prod.snd hw2
          simpa using this
        obtain ⟨hk2, hk1⟩ := killProcess_kill heq hg hw
        rw [hk1] at h
        rw [hlen] at hg
        refine ⟨[.cmdline, .environ] ++ ([.requestGracefulShutdown] ++ (polls ticks ++ [.kill])),
          by rw [hk2, htr3]; simp, ?_⟩
        refine clean_append hcl (clean_append ?_ (clean_append ?_ ?_))
        · intro j c hj
          match j, hj with
          | 0, hj => simp at hj; subst hj; simp [answeredESRCH, hg]
          | j + 1, hj => simp at hj
        · simpa [Nat.add_assoc] using hclw
        · have hl3 : tr3.length = tr.length + 2 + 1 + (polls ticks).length := by
            rw [htr3]; simp; omega
          intro j c hj
          match j, hj with
          | 0, hj =>
            simp at hj; subst hj
            simp only [List.length_cons, List.length_nil, Nat.add_zero]
            rw [← hl3]
            cases hkk : ph.kill tr3.length with
            | none => simp [answeredESRCH, hkk]
            | some e =>
              rw [hkk] at h
              by_cases he : e.is .ESRCH = true
              · simp [he] at h
              · simpa [answeredESRCH, hkk] using he
          | j + 1, hj => simp at hj
  · have hf : (shouldKillProcess binPath ph tr).1.1 = false := by simpa using hs
    obtain ⟨ext, hext, _, hcl⟩ := shouldKillProcess_trace binPath ph tr
    rcases hr : shouldKillProcess binPath ph tr with ⟨⟨b, err⟩, tr1⟩
    rw [hr] at hf hext hcl
    simp only [] at hf hext hcl
    rw [killProcess_stop hr (Or.inr hf)] at h ⊢
    exact ⟨ext, hext, hcl h⟩

/-! ## Identity-gated kill -/

/-- C1: a process whose command line is non-empty with a first argument other than `BinPath`, or
whose first argument is `BinPath` but whose environment (successfully read) lacks the marker
`_K0S_MANAGED=yes`, makes `killProcess` return nil, and `killProcess` performs neither
`requestGracefulShutdown` nor `kill` on the handle. -/
theorem killProcess_foreign_untouched (binPath : Str) (ticks : Nat) (ph : procHandle)
    (tr : Trace)
    (h : (∃ cmd, ph.cmdline tr.length = .ok cmd ∧ cmd ≠ [] ∧ cmd.head? ≠ some binPath) ∨
      (∃ cmd env, ph.cmdline tr.length = .ok cmd ∧ cmd.head? = some binPath ∧
        ph.environ (tr.length + 1) = .ok env ∧ k0sManaged ∉ env)) :
    (killProcess binPath ticks ph tr).1 = none ∧
      ∃ ext, (killProcess binPath ticks ph tr).2 = tr ++ ext ∧
        Call.requestGracefulShutdown ∉ ext ∧ Call.kill ∉ ext := by
  rcases h with ⟨cmd, hc, hne, hd⟩ | ⟨cmd, env, hc, hd, hen, hm⟩
  · have hg : cmd.length > 0 ∧ cmd.head? ≠ some binPath :=
      ⟨List.length_pos.mpr hne, hd⟩
    rw [killProcess_stop (shouldKillProcess_cmdline_differs hc hg) (Or.inr rfl)]
    exact ⟨rfl, [.cmdline], rfl, by simp, by simp⟩
  · have hg : ¬ (cmd.length > 0 ∧ cmd.head? ≠ some binPath) := fun hh => hh.2 hd
    rw [killProcess_stop (shouldKillProcess_unmarked hc hg hen hm) (Or.inr rfl)]
    exact ⟨rfl, [.cmdline, .environ], rfl, by simp, by simp⟩

/-- C1, at a sample foreign process. -/
theorem killProcess_foreign_untouched_witness :
    (killProcess sampleBin 3 foreignHandle []).1 = none ∧
      ∃ ext, (killProcess sampleBin 3 foreignHandle []).2 = [] ++ ext ∧
        Call.requestGracefulShutdown ∉ ext ∧ Call.kill ∉ ext :=
  killProcess_foreign_untouched sampleBin 3 foreignHandle []
    (Or.inl ⟨["/usr/bin/sleep".toList, "60".toList], rfl, by simp, by decide⟩)

/-- C2, at the failing input: a process with an empty command line whose environment contains
the marker is reported eligible, although no first argument equals `BinPath`. -/
theorem shouldKillProcess_empty_cmdline_eligible :
    emptyCmdlineHandle.cmdline 0 = .ok [] ∧
      (shouldKillProcess sampleBin emptyCmdlineHandle []).1 = (true, none) := by
  refine ⟨rfl, ?_⟩
  have h := @shouldKillProcess_marked sampleBin emptyCmdlineHandle
    [] [] [k0sManaged] rfl (by simp) rfl (by simp)
  rw [h]

/-! ## Graceful termination, then kill -/

/-- C7: for a process that is eligible at the initial check and whose graceful-termination
request succeeds: if every one of the `ticks` polls before the deadline finds it eligible, the
operations performed are the initial check, the graceful request, the polls and then exactly one
`kill`; if some poll before the deadline does not find it eligible, `killProcess` returns nil and
never performs `kill`. -/
theorem killProcess_graceful_then_kill (binPath : Str) (ticks : Nat) (ph : procHandle)
    (tr : Trace)
    (h0 : (shouldKillProcess binPath ph tr).1.1 = true)
    (hg : ph.requestGracefulShutdown (tr.length + 2) = none) :
    ((∀ k, k < ticks → (shouldKillProcess binPath ph (pollTrace tr k)).1.1 = true) →
      (killProcess binPath ticks ph tr).2 = pollTrace tr ticks ++ [.kill] ∧
      List.count Call.kill (pollTrace tr ticks ++ [Call.kill]) = List.count Call.kill tr + 1 ∧
      Call.requestGracefulShutdown ∈ pollTrace [] ticks) ∧
    ((∃ k, k < ticks ∧ (shouldKillProcess binPath ph (pollTrace tr k)).1.1 = false) →
      (killProcess binPath ticks ph tr).1 = none ∧
      ∃ ext, (killProcess binPath ticks ph tr).2 = tr ++ ext ∧ Call.kill ∉ ext) := by
  obtain ⟨heq, _, _⟩ := shouldKillProcess_true h0
  have hlen : (tr ++ [Call.cmdline, Call.environ]).length = tr.length + 2 := by simp
  rw [← hlen] at hg
  have hpt : ∀ k, pollTrace tr k =
      tr ++ [Call.cmdline, Call.environ] ++ [.requestGracefulShutdown] ++ polls k := by
    intro k; simp [pollTrace]
  constructor
  · intro hall
    have hw1 : (waitForTermination binPath ph ticks
        (tr ++ [Call.cmdline, Call.environ] ++ [.requestGracefulShutdown])).1.1 = true := by
      apply waitForTermination_of_eligible
      intro k hk
      rw [← hpt]
      exact hall k hk
    obtain ⟨hw, _, _⟩ := waitForTermination_true ticks _ hw1
    obtain ⟨hk2, _⟩ := killProcess_kill heq hg hw
    refine ⟨by rw [hk2, hpt], ?_, ?_⟩
    · have hp : (polls ticks).count Call.kill = 0 := by
        apply List.count_eq_zero.mpr
        intro hmem
        simp only [polls, List.mem_flatten, List.mem_replicate] at hmem
        obtain ⟨l, ⟨_, hl⟩, hin⟩ := hmem
        subst hl
        simp at hin
      simp [pollTrace, List.count_append, hp, List.count_cons]
    · simp [pollTrace]
  · rintro ⟨k, hk, hfalse⟩
    rcases hw : waitForTermination binPath ph ticks
      (tr ++ [Call.cmdline, Call.environ] ++ [.requestGracefulShutdown]) with ⟨⟨t, werr⟩, tr3⟩
    obtain ⟨ext, hext, hmem, hnone⟩ := @waitForTermination_trace binPath ph
      ticks (tr ++ [Call.cmdline, Call.environ] ++ [.requestGracefulShutdown])
    rw [hw] at hnone hext
    simp only [] at hnone hext
    subst hnone
    have ht : t = false := by
      cases t with
      | false => rfl
      | true =>
        exfalso
        obtain ⟨_, _, hall⟩ := waitForTermination_true ticks _ (by rw [hw])
        have := hall k hk
        rw [← hpt, hfalse] at this
        exact Bool.false_ne_true this
    rw [killProcess_wait_stop heq hg hw (Or.inr ht)]
    refine ⟨rfl, [.cmdline, .environ] ++ [.requestGracefulShutdown] ++ ext, ?_, ?_⟩
    · rw [hext]; simp
    · intro hin
      simp only [List.mem_append, List.mem_cons, List.mem_singleton, List.not_mem_nil,
        or_false] at hin
      rcases hin with (h | h) | h
      · rcases h with h | h <;> cases h
      · cases h
      · rcases hmem _ h with h | h <;> cases h

/-- C7, at a managed process that ignores the graceful request, with two polls. -/
theorem killProcess_graceful_then_kill_witness :
    (killProcess sampleBin 2 stubbornHandle []).2 =
      [.cmdline, .environ, .requestGracefulShutdown, .cmdline, .environ, .cmdline, .environ,
        .kill] := by
  have hel : ∀ tr : Trace, (shouldKillProcess sampleBin stubbornHandle tr).1.1 = true := by
    intro tr
    rw [@shouldKillProcess_marked sampleBin stubbornHandle tr
      [sampleBin] ["HOME=/root".toList, k0sManaged] rfl (by simp) rfl
      (by simp)]
  have h := (killProcess_graceful_then_kill sampleBin 2 stubbornHandle [] (hel _) rfl).1
    (fun k _ => hel _)
  rw [h.1]
  rfl

/-! ## "No such process" is success -/

/-- C8: if any operation that `killProcess` performs on the handle (a command-line or
environment query, of the initial check or of a poll, the graceful-termination request, or the
kill) fails with an error matching `syscall.ESRCH`, then `killProcess` returns nil. -/
theorem killProcess_esrch_is_success (binPath : Str) (ticks : Nat) (ph : procHandle)
    (tr : Trace) (i : Nat) (c : Call) (hi : tr.length ≤ i)
    (hc : (killProcess binPath ticks ph tr).2[i]? = some c)
    (he : answeredESRCH ph c i = true) :
    (killProcess binPath ticks ph tr).1 = none := by
  by_contra h
  obtain ⟨ext, hext, hcl⟩ := killProcess_error_clean binPath ticks ph tr h
  rw [hext, List.getElem?_append_right hi] at hc
  have := hcl (i - tr.length) c hc
  have e : tr.length + (i - tr.length) = i := by omega
  rw [e, he] at this
  exact Bool.noConfusion this

/-- C8, at a process that vanishes after the graceful request: the first poll fails with
`ESRCH`. -/
theorem killProcess_esrch_is_success_witness :
    (killProcess sampleBin 5 obedientHandle []).2[3]? = some Call.cmdline ∧
      answeredESRCH obedientHandle .cmdline 3 = true ∧
      (killProcess sampleBin 5 obedientHandle []).1 = none := by
  have h1 : (killProcess sampleBin 5 obedientHandle []).2[3]? = some Call.cmdline := by
    decide
  exact ⟨h1, by decide,
    killProcess_esrch_is_success sampleBin 5 obedientHandle [] 3 .cmdline (by simp) h1
      (by decide)⟩


/-! ## Lemmas on strings -/

theorem dropWhile_head_not {p : Char → Bool} :
    ∀ {l : List Char} {c : Char} {v : List Char}, l.dropWhile p = c :: v → p c = false := by
  intro l
  induction l with
  | nil => intro c v h; simp at h
  | cons a l ih =>
    intro c v h
    by_cases ha : p a = true
    · rw [List.dropWhile_cons_of_pos ha] at h; exact ih h
    · rw [List.dropWhile_cons_of_neg ha] at h
      injection h with h1 _
      subst h1
      simpa using ha

theorem key_no_eq (e : Str) : '=' ∉ key e := by
  intro h
  have := List.mem_takeWhile_imp h
  simp at this

theorem splitN2_pair {e k v : Str} (h : splitN2 e = [k, v]) :
    k = key e ∧ e = k ++ '=' :: v := by
  unfold splitN2 at h
  rw [List.span_eq_take_drop] at h
  have hap := List.takeWhile_append_dropWhile (fun c => c != '=') e
  cases hd : e.dropWhile (fun c => c != '=') with
  | nil => rw [hd] at h; simp at h
  | cons c w =>
    rw [hd] at h hap
    simp only [List.cons.injEq, and_true] at h
    obtain ⟨h1, h2⟩ := h
    have hc := dropWhile_head_not hd
    have hc2 : c = '=' := by simpa using hc
    subst hc2
    subst h2
    refine ⟨h1.symm, ?_⟩
    rw [← h1]
    exact hap.symm

theorem key_append_eq {k : Str} (v : Str) (hk : '=' ∉ k) : key (k ++ '=' :: v) = k := by
  unfold key
  rw [List.takeWhile_append]
  have h1 : List.takeWhile (fun c => c != '=') k = k := by
    apply List.takeWhile_eq_self_iff.mpr
    intro c hc
    have : c ≠ '=' := fun hh => hk (hh ▸ hc)
    simpa using this
  rw [h1]
  simp

theorem splitN2_of_mem {e : Str} (h : '=' ∈ e) :
    ∃ v, splitN2 e = [key e, v] ∧ e = key e ++ '=' :: v := by
  unfold splitN2
  rw [List.span_eq_take_drop]
  have hap := List.takeWhile_append_dropWhile (fun c => c != '=') e
  cases hd : e.dropWhile (fun c => c != '=') with
  | nil =>
    exfalso
    rw [hd, List.append_nil] at hap
    have : '=' ∈ List.takeWhile (fun c => c != '=') e := by rw [hap]; exact h
    exact key_no_eq e this
  | cons c w =>
    have hc := dropWhile_head_not hd
    have hc2 : c = '=' := by simpa using hc
    rw [hd] at hap
    subst hc2
    exact ⟨w, rfl, hap.symm⟩

theorem hasPrefix_append (pre n : Str) : hasPrefix (pre ++ n) pre = true := by
  simp [hasPrefix]

theorem trimPrefix_append (pre n : Str) : trimPrefix (pre ++ n) pre = n := by
  simp [trimPrefix, hasPrefix]

theorem eq_append_of_hasPrefix {k pre : Str} (h : hasPrefix k pre = true) :
    k = pre ++ trimPrefix k pre := by
  have hp : pre <+: k := by simpa [hasPrefix] using h
  obtain ⟨t, ht⟩ := hp
  subst ht
  rw [trimPrefix_append]

theorem trimPrefix_no_eq {k pre : Str} (hk : '=' ∉ k) : '=' ∉ trimPrefix k pre := by
  unfold trimPrefix
  split
  · intro h; exact hk (List.mem_of_mem_drop h)
  · exact hk

theorem targetKey_no_eq {k pre : Str} {keep : Bool} (hk : '=' ∉ k) :
    '=' ∉ targetKey pre keep k := by
  unfold targetKey
  split
  · exact trimPrefix_no_eq hk
  · exact hk

theorem key_emit (sep : Char) (dataDir : Str) {k : Str} (v : Str) (hk : '=' ∉ k) :
    key (emit sep dataDir k v) = k := by
  unfold emit
  split
  · rename_i h
    subst h
    rfl
  · exact key_append_eq v hk

theorem emit_of_ne_path (sep : Char) (dataDir : Str) {k : Str} (v : Str)
    (hk : k ≠ "PATH".toList) : emit sep dataDir k v = k ++ '=' :: v := by
  unfold emit
  rw [if_neg hk]

theorem prefix_of_prefix_append_eq :
    ∀ (k pre v : Str), '=' ∉ pre → pre <+: k ++ '=' :: v → pre <+: k := by
  intro k
  induction k with
  | nil =>
    intro pre v hp h
    cases pre with
    | nil => exact List.nil_prefix
    | cons b pre1 =>
      exfalso
      rw [List.nil_append, List.cons_prefix_cons] at h
      exact hp (by rw [h.1]; simp)
  | cons a k1 ih =>
    intro pre v hp h
    cases pre with
    | nil => exact List.nil_prefix
    | cons b pre1 =>
      rw [List.cons_append, List.cons_prefix_cons] at h
      rw [List.cons_prefix_cons]
      exact ⟨h.1, ih pre1 v (fun hh => hp (List.mem_cons_of_mem _ hh)) h.2⟩

theorem hasPrefix_key {e pre : Str} (he : '=' ∈ e) (hp : '=' ∉ pre) :
    hasPrefix (key e) pre = hasPrefix e pre := by
  obtain ⟨v, _, hv⟩ := splitN2_of_mem he
  apply Bool.eq_iff_iff.mpr
  constructor
  · intro h
    have h1 : pre <+: key e := by simpa [hasPrefix] using h
    have h2 : pre <+: key e ++ '=' :: v := h1.trans (List.prefix_append _ _)
    rw [← hv] at h2
    simpa [hasPrefix] using h2
  · intro h
    have h1 : pre <+: e := by simpa [hasPrefix] using h
    rw [hv] at h1
    have h2 := prefix_of_prefix_append_eq _ _ _ hp h1
    simpa [hasPrefix] using h2

/-! ## Lemmas on the loop of `getEnv` -/

theorem getEnvLoop_skip {sep : Char} {d pre : Str} {keep : Bool} {e k v : Str}
    {rest ov : List Str} (hs : splitN2 e = [k, v]) (hk : k ∈ ov) :
    getEnvLoop sep d pre keep (e :: rest) ov = getEnvLoop sep d pre keep rest ov := by
  rw [getEnvLoop, hs]; simp only []; rw [if_pos hk]

theorem getEnvLoop_demoted {sep : Char} {d pre : Str} {keep : Bool} {e k v : Str}
    {rest ov : List Str} (hs : splitN2 e = [k, v]) (hk : k ∉ ov) (hd : demoted pre keep k) :
    getEnvLoop sep d pre keep (e :: rest) ov =
      (getEnvLoop sep d pre keep rest (trimPrefix k pre :: ov)).map
        (fun out => emit sep d (trimPrefix k pre) v :: out) := by
  rw [getEnvLoop, hs]; simp only []; rw [if_neg hk, if_pos hd]

theorem getEnvLoop_plain {sep : Char} {d pre : Str} {keep : Bool} {e k v : Str}
    {rest ov : List Str} (hs : splitN2 e = [k, v]) (hk : k ∉ ov) (hd : ¬ demoted pre keep k) :
    getEnvLoop sep d pre keep (e :: rest) ov =
      (getEnvLoop sep d pre keep rest ov).map (fun out => emit sep d k v :: out) := by
  rw [getEnvLoop, hs]; simp only []; rw [if_neg hk, if_neg hd]

theorem getEnvLoop_some_split {sep : Char} {d pre : Str} {keep : Bool} {e : Str}
    {rest ov out : List Str} (h : getEnvLoop sep d pre keep (e :: rest) ov = some out) :
    ∃ k v, splitN2 e = [k, v] := by
  unfold getEnvLoop at h
  split at h
  · rename_i k v hs
    exact ⟨k, v, hs⟩
  · simp at h

/-- The loop returns (does not panic) when every entry contains `'='`. -/
theorem getEnvLoop_total (sep : Char) (d pre : Str) (keep : Bool) :
    ∀ (l ov : List Str), (∀ e ∈ l, '=' ∈ e) →
      ∃ out, getEnvLoop sep d pre keep l ov = some out := by
  intro l
  induction l with
  | nil => intro ov _; exact ⟨[], rfl⟩
  | cons e rest ih =>
    intro ov h
    obtain ⟨v, hs, _⟩ := splitN2_of_mem (h e (List.mem_cons_self _ _))
    have hrest : ∀ e' ∈ rest, '=' ∈ e' := fun e' he' => h e' (List.mem_cons_of_mem _ he')
    by_cases hk : key e ∈ ov
    · rw [getEnvLoop_skip hs hk]; exact ih ov hrest
    · by_cases hd : demoted pre keep (key e)
      · rw [getEnvLoop_demoted hs hk hd]
        obtain ⟨out, ho⟩ := ih (trimPrefix (key e) pre :: ov) hrest
        exact ⟨_, by rw [ho]; rfl⟩
      · rw [getEnvLoop_plain hs hk hd]
        obtain ⟨out, ho⟩ := ih ov hrest
        exact ⟨_, by rw [ho]; rfl⟩

/-- Every entry the loop writes comes from an input entry `k=v` whose key is not overridden at
the start; it is written under the target key of `k`. -/
theorem getEnvLoop_mem (sep : Char) (d pre : Str) (keep : Bool) :
    ∀ (l ov out : List Str), getEnvLoop sep d pre keep l ov = some out →
      ∀ o ∈ out, ∃ e ∈ l, ∃ k v, splitN2 e = [k, v] ∧ k ∉ ov ∧
        o = emit sep d (targetKey pre keep k) v := by
  intro l
  induction l with
  | nil =>
    intro ov out h o ho
    simp [getEnvLoop] at h
    subst h
    simp at ho
  | cons e rest ih =>
    intro ov out h o ho
    obtain ⟨k, v, hs⟩ := getEnvLoop_some_split h
    by_cases hk : k ∈ ov
    · rw [getEnvLoop_skip hs hk] at h
      obtain ⟨e', he', r⟩ := ih ov out h o ho
      exact ⟨e', List.mem_cons_of_mem _ he', r⟩
    · by_cases hd : demoted pre keep k
      · rw [getEnvLoop_demoted hs hk hd] at h
        rcases hr : getEnvLoop sep d pre keep rest (trimPrefix k pre :: ov) with _ | out1
        · rw [hr] at h; simp at h
        · rw [hr] at h
          simp only [Option.map_some', Option.some.injEq] at h
          subst h
          rcases List.mem_cons.mp ho with h1 | h1
          · refine ⟨e, List.mem_cons_self _ _, k, v, hs, hk, ?_⟩
            rw [h1, targetKey, if_pos hd]
          · obtain ⟨e', he', k', v', hs', hk', r⟩ := ih _ out1 hr o h1
            exact ⟨e', List.mem_cons_of_mem _ he', k', v', hs',
              fun hh => hk' (List.mem_cons_of_mem _ hh), r⟩
      · rw [getEnvLoop_plain hs hk hd] at h
        rcases hr : getEnvLoop sep d pre keep rest ov with _ | out1
        · rw [hr] at h; simp at h
        · rw [hr] at h
          simp only [Option.map_some', Option.some.injEq] at h
          subst h
          rcases List.mem_cons.mp ho with h1 | h1
          · refine ⟨e, List.mem_cons_self _ _, k, v, hs, hk, ?_⟩
            rw [h1, targetKey, if_neg hd]
          · obtain ⟨e', he', r⟩ := ih _ out1 hr o h1
            exact ⟨e', List.mem_cons_of_mem _ he', r⟩

/-- An input entry `k=v` is written, under its target key, when `k` is not overridden at the
start and no demoted entry of the input is demoted to the key `k`. -/
theorem getEnvLoop_complete (sep : Char) (d pre : Str) (keep : Bool) :
    ∀ (l ov out : List Str), getEnvLoop sep d pre keep l ov = some out →
      ∀ e k v, e ∈ l → splitN2 e = [k, v] → k ∉ ov →
        (∀ e' ∈ l, demoted pre keep (key e') → trimPrefix (key e') pre ≠ k) →
        emit sep d (targetKey pre keep k) v ∈ out := by
  intro l
  induction l with
  | nil => intro ov out _ e k v he; simp at he
  | cons h rest ih =>
    intro ov out hl e k v he hs hk hno
    obtain ⟨kh, vh, hsh⟩ := getEnvLoop_some_split hl
    have hkh : kh = key h := (splitN2_pair hsh).1
    have hno' : ∀ e' ∈ rest, demoted pre keep (key e') → trimPrefix (key e') pre ≠ k :=
      fun e' he' => hno e' (List.mem_cons_of_mem _ he')
    by_cases hkov : kh ∈ ov
    · rw [getEnvLoop_skip hsh hkov] at hl
      rcases List.mem_cons.mp he with h1 | h1
      · exfalso
        subst h1
        rw [hs] at hsh
        simp only [List.cons.injEq, and_true] at hsh
        exact hk (hsh.1 ▸ hkov)
      · exact ih ov out hl e k v h1 hs hk hno'
    · by_cases hd : demoted pre keep kh
      · rw [getEnvLoop_demoted hsh hkov hd] at hl
        rcases hr : getEnvLoop sep d pre keep rest (trimPrefix kh pre :: ov) with _ | out1
        · rw [hr] at hl; simp at hl
        · rw [hr] at hl
          simp only [Option.map_some', Option.some.injEq] at hl
          subst hl
          rcases List.mem_cons.mp he with h1 | h1
          · subst h1
            rw [hs] at hsh
            simp only [List.cons.injEq, and_true] at hsh
            obtain ⟨e1, e2⟩ := hsh
            subst e1; subst e2
            rw [targetKey, if_pos hd]
            exact List.mem_cons_self _ _
          · apply List.mem_cons_of_mem
            refine ih _ out1 hr e k v h1 hs ?_ hno'
            intro hin
            rcases List.mem_cons.mp hin with h2 | h2
            · exact hno h (List.mem_cons_self _ _) (hkh ▸ hd) (by rw [← hkh]; exact h2.symm)
            · exact hk h2
      · rw [getEnvLoop_plain hsh hkov hd] at hl
        rcases hr : getEnvLoop sep d pre keep rest ov with _ | out1
        · rw [hr] at hl; simp at hl
        · rw [hr] at hl
          simp only [Option.map_some', Option.some.injEq] at hl
          subst hl
          rcases List.mem_cons.mp he with h1 | h1
          · subst h1
            rw [hs] at hsh
            simp only [List.cons.injEq, and_true] at hsh
            obtain ⟨e1, e2⟩ := hsh
            subst e1; subst e2
            rw [targetKey, if_neg hd]
            exact List.mem_cons_self _ _
          · exact List.mem_cons_of_mem _ (ih _ out1 hr e k v h1 hs hk hno')

/-- The keys the loop writes are pairwise distinct, and none of them is overridden at the start,
when the input has distinct keys, its prefixed entries come first, and (with `keepEnvPrefix`)
the input does not hold, for a proxy variable name `n` that carries the component prefix, both
the key `n` and the key `pre ++ n`. -/
theorem getEnvLoop_nodup (sep : Char) (d pre : Str) (keep : Bool) :
    ∀ (l ov out : List Str), (∀ e ∈ l, '=' ∈ e) → (l.map key).Nodup →
      l.Pairwise (fun a b => hasPrefix b pre = true → hasPrefix a pre = true) →
      (∀ k1 ∈ ov, pre ++ k1 ∉ l.map key) →
      (keep = true → ∀ n ∈ proxyNames, hasPrefix n pre = true → n ∈ l.map key →
        pre ++ n ∉ l.map key) →
      getEnvLoop sep d pre keep l ov = some out →
      (out.map key).Nodup ∧ ∀ o ∈ out, key o ∉ ov := by
  intro l
  induction l with
  | nil =>
    intro ov out _ _ _ _ _ h
    simp [getEnvLoop] at h
    subst h
    simp
  | cons h rest ih =>
    intro ov out hall hnd hfs hov hp hl
    obtain ⟨kh, vh, hsh⟩ := getEnvLoop_some_split hl
    have hkh : kh = key h := (splitN2_pair hsh).1
    have hkeq : '=' ∉ kh := hkh ▸ key_no_eq h
    have hall' : ∀ e ∈ rest, '=' ∈ e := fun e he => hall e (List.mem_cons_of_mem _ he)
    have hp' : keep = true → ∀ n ∈ proxyNames, hasPrefix n pre = true → n ∈ rest.map key →
        pre ++ n ∉ rest.map key := by
      intro hk n hn hpn hin hin2
      exact hp hk n hn hpn (by rw [List.map_cons]; exact List.mem_cons_of_mem _ hin)
        (by rw [List.map_cons]; exact List.mem_cons_of_mem _ hin2)
    rw [List.map_cons, List.nodup_cons] at hnd
    obtain ⟨hnotin, hnd'⟩ := hnd
    rw [List.pairwise_cons] at hfs
    obtain ⟨hfront, hfs'⟩ := hfs
    have hov' : ∀ k1 ∈ ov, pre ++ k1 ∉ rest.map key := by
      intro k1 hk1 hin
      exact hov k1 hk1 (by rw [List.map_cons]; exact List.mem_cons_of_mem _ hin)
    by_cases hkov : kh ∈ ov
    · rw [getEnvLoop_skip hsh hkov] at hl
      exact ih ov out hall' hnd' hfs' hov' hp' hl
    · by_cases hd : demoted pre keep kh
      · rw [getEnvLoop_demoted hsh hkov hd] at hl
        rcases hr : getEnvLoop sep d pre keep rest (trimPrefix kh pre :: ov) with _ | out1
        · rw [hr] at hl; simp at hl
        · rw [hr] at hl
          simp only [Option.map_some', Option.some.injEq] at hl
          subst hl
          have hkapp : pre ++ trimPrefix kh pre = kh := (eq_append_of_hasPrefix hd.1).symm
          have hov1 : ∀ k1 ∈ trimPrefix kh pre :: ov, pre ++ k1 ∉ rest.map key := by
            intro k1 hk1
            rcases List.mem_cons.mp hk1 with h1 | h1
            · rw [h1, hkapp, hkh]; exact hnotin
            · exact hov' k1 h1
          obtain ⟨hn1, hnot1⟩ := ih _ out1 hall' hnd' hfs' hov1 hp' hr
          have hkey : key (emit sep d (trimPrefix kh pre) vh) = trimPrefix kh pre :=
            key_emit sep d vh (trimPrefix_no_eq hkeq)
          refine ⟨?_, ?_⟩
          · rw [List.map_cons, List.nodup_cons, hkey]
            refine ⟨?_, hn1⟩
            intro hin
            obtain ⟨o, ho, hko⟩ := List.mem_map.mp hin
            exact hnot1 o ho (by rw [hko]; exact List.mem_cons_self _ _)
          · intro o ho
            rcases List.mem_cons.mp ho with h1 | h1
            · rw [h1, hkey]
              intro hin
              apply hov _ hin
              rw [hkapp, hkh, List.map_cons]
              exact List.mem_cons_self _ _
            · exact fun hin => hnot1 o h1 (List.mem_cons_of_mem _ hin)
      · rw [getEnvLoop_plain hsh hkov hd] at hl
        rcases hr : getEnvLoop sep d pre keep rest ov with _ | out1
        · rw [hr] at hl; simp at hl
        · rw [hr] at hl
          simp only [Option.map_some', Option.some.injEq] at hl
          subst hl
          obtain ⟨hn1, hnot1⟩ := ih _ out1 hall' hnd' hfs' hov' hp' hr
          have hkey : key (emit sep d kh vh) = kh := key_emit sep d vh hkeq
          refine ⟨?_, ?_⟩
          · rw [List.map_cons, List.nodup_cons, hkey]
            refine ⟨?_, hn1⟩
            intro hin
            obtain ⟨o, ho, hko⟩ := List.mem_map.mp hin
            obtain ⟨e', he', k, v, hs', _, hoe⟩ := getEnvLoop_mem sep d pre keep _ _ _ hr o ho
            have hk' : k = key e' := (splitN2_pair hs').1
            have hkeq' : '=' ∉ k := hk' ▸ key_no_eq e'
            rw [hoe, key_emit sep d v (targetKey_no_eq hkeq')] at hko
            by_cases hd' : demoted pre keep k
            · rw [targetKey, if_pos hd'] at hko
              have hpre : '=' ∉ pre := by
                intro hin
                have hpk : pre <+: k := by simpa [hasPrefix] using hd'.1
                exact hkeq' (hpk.subset hin)
              have hpe' : hasPrefix e' pre = true := by
                rw [← hasPrefix_key (hall' e' he') hpre, ← hk']; exact hd'.1
              have hph : hasPrefix kh pre = true := by
                rw [hkh, hasPrefix_key (hall h (List.mem_cons_self _ _)) hpre]
                exact hfront e' he' hpe'
              have hkeep : keep = true := by
                cases hkp : keep with
                | true => rfl
                | false => exact absurd ⟨hph, Or.inr hkp⟩ hd
              rcases hd'.2 with h2 | h2
              · rw [hko] at h2
                have hkk := eq_append_of_hasPrefix hd'.1
                rw [hko] at hkk
                refine hp hkeep kh h2 hph ?_ ?_
                · rw [hkh, List.map_cons]; exact List.mem_cons_self _ _
                · rw [← hkk, hk', List.map_cons]
                  exact List.mem_cons_of_mem _ (List.mem_map_of_mem _ he')
              · rw [hkeep] at h2; exact Bool.noConfusion h2
            · rw [targetKey, if_neg hd'] at hko
              apply hnotin
              rw [← hkh, ← hko, hk']
              exact List.mem_map_of_mem _ he'
          · intro o ho
            rcases List.mem_cons.mp ho with h1 | h1
            · rw [h1, hkey]; exact hkov
            · exact hnot1 o h1

theorem splitN2_append {k : Str} (v : Str) (hk : '=' ∉ k) :
    splitN2 (k ++ '=' :: v) = [k, v] := by
  obtain ⟨w, hs, he⟩ := splitN2_of_mem (e := k ++ '=' :: v) (by simp)
  rw [key_append_eq v hk] at hs he
  have hw : v = w := by
    have := List.append_cancel_left he
    simpa using this
  rw [hs, hw]

theorem componentPrefix_ne_path (toUpper : Str → Str) (component n : Str) :
    componentPrefix toUpper component ++ n ≠ "PATH".toList := by
  intro h
  have hm : '_' ∈ componentPrefix toUpper component ++ n := by simp [componentPrefix]
  rw [h] at hm
  revert hm
  decide

theorem key_k0sManaged : key k0sManaged = "_K0S_MANAGED".toList := by decide

theorem getEnv_some {sortSlice : List Str → (Str → Str → Bool) → List Str}
    {toUpper : Str → Str} {sep : Char}
    {environ : List Str} {dataDir component : Str} {keep : Bool}
    (hperm : (sortSlice environ (fun a _ => hasPrefix a (componentPrefix toUpper component))).Perm
      environ)
    (hall : ∀ e ∈ environ, '=' ∈ e) :
    ∃ out, getEnvLoop sep dataDir (componentPrefix toUpper component) keep
        (sortSlice environ (fun a _ => hasPrefix a (componentPrefix toUpper component))) [] = some out ∧
      getEnv sortSlice toUpper sep environ dataDir component keep = some (k0sManaged :: out) := by
  obtain ⟨out, ho⟩ := getEnvLoop_total sep dataDir (componentPrefix toUpper component) keep
    (sortSlice environ (fun a _ => hasPrefix a (componentPrefix toUpper component))) []
    (fun e he => hall e (hperm.mem_iff.mp he))
  refine ⟨out, ho, ?_⟩
  unfold getEnv
  simp only []
  rw [ho]
  rfl

/-! ## PATH augmentation -/

/-- C5: when every entry of the parent environment contains `'='`, `getEnv` returns a list, and
every entry with key `PATH` in it is `"PATH=" + path.Join(dataDir, "bin") + separator + v`, where
`v` is the value of an input entry `PATH=v`, or of an input entry `<PREFIX>PATH=v` that was
demoted. -/
theorem getEnv_path_entries (sortSlice : List Str → (Str → Str → Bool) → List Str)
    (toUpper : Str → Str)
    (sep : Char) (environ : List Str) (dataDir component : Str) (keep : Bool)
    (hperm : (sortSlice environ (fun a _ => hasPrefix a (componentPrefix toUpper component))).Perm
      environ)
    (hall : ∀ e ∈ environ, '=' ∈ e) :
    ∃ out, getEnv sortSlice toUpper sep environ dataDir component keep = some out ∧
      ∀ o ∈ out, key o = "PATH".toList →
        ∃ v, o = "PATH=".toList ++ PathListJoin sep (pathJoin dataDir "bin".toList) v ∧
          ("PATH".toList ++ '=' :: v ∈ environ ∨
            (componentPrefix toUpper component ++ "PATH".toList ++ '=' :: v ∈ environ ∧
              demoted (componentPrefix toUpper component) keep
                (componentPrefix toUpper component ++ "PATH".toList))) := by
  obtain ⟨out, ho, hg⟩ := @getEnv_some _ _ sep _ dataDir _ keep hperm hall
  refine ⟨_, hg, ?_⟩
  intro o hmem hkey
  rcases List.mem_cons.mp hmem with h1 | h1
  · exfalso
    rw [h1, key_k0sManaged] at hkey
    revert hkey
    decide
  · obtain ⟨e, he, k, v, hs, _, hoe⟩ := getEnvLoop_mem _ _ _ _ _ _ _ ho o h1
    obtain ⟨hk, hev⟩ := splitN2_pair hs
    have hkeq : '=' ∉ k := hk ▸ key_no_eq e
    rw [hoe, key_emit sep dataDir v (targetKey_no_eq hkeq)] at hkey
    have hemit : o = "PATH=".toList ++ PathListJoin sep (pathJoin dataDir "bin".toList) v := by
      rw [hoe, hkey, emit, if_pos rfl]
    refine ⟨v, hemit, ?_⟩
    have he' : e ∈ environ := hperm.mem_iff.mp he
    by_cases hd : demoted (componentPrefix toUpper component) keep k
    · right
      rw [targetKey, if_pos hd] at hkey
      have hkk := eq_append_of_hasPrefix hd.1
      rw [hkey] at hkk
      refine ⟨?_, hkk ▸ hd⟩
      rw [← hkk, ← hev]
      exact he'
    · left
      rw [targetKey, if_neg hd] at hkey
      rw [← hkey, ← hev]
      exact he'

/-- C5, at the data directory `/data` with the inherited `PATH=/usr/bin`. -/
theorem getEnv_path_entries_witness :
    getEnv insertionSort asciiToUpper ':' ["PATH=/usr/bin".toList] "/data".toList "etcd".toList false =
        some [k0sManaged, "PATH=/data/bin:/usr/bin".toList] ∧
    ∃ out, getEnv insertionSort asciiToUpper ':' ["PATH=/usr/bin".toList] "/data".toList "etcd".toList false
        = some out ∧
      ∀ o ∈ out, key o = "PATH".toList →
        ∃ v, o = "PATH=".toList ++ PathListJoin ':' (pathJoin "/data".toList "bin".toList) v ∧
          ("PATH".toList ++ '=' :: v ∈ ["PATH=/usr/bin".toList] ∨
            (componentPrefix asciiToUpper "etcd".toList ++ "PATH".toList ++ '=' :: v ∈
                ["PATH=/usr/bin".toList] ∧
              demoted (componentPrefix asciiToUpper "etcd".toList) false
                (componentPrefix asciiToUpper "etcd".toList ++ "PATH".toList))) :=
  ⟨by decide,
    getEnv_path_entries insertionSort asciiToUpper ':' ["PATH=/usr/bin".toList] "/data".toList "etcd".toList
      false (List.Perm.refl _) (by decide)⟩

/-! ## Keeping the prefix -/

/-- C4 as stated fails, twice.  For component `foo` and `N = FOO_HTTP_PROXY` (which is none of
`PATH`, `HTTP_PROXY`, `HTTPS_PROXY`, `NO_PROXY`), with `keepEnvPrefix = true`, the entry `N=x` is
not passed on unchanged: it is demoted to `HTTP_PROXY=x`.  For component `http` and
`N = PROXY`, with a third entry `HTTP_HTTP_PROXY=z`, the entry `P+N=y`, that is `HTTP_PROXY=y`,
is not passed on: the demoted third entry takes its key. -/
theorem getEnv_keep_prefix_counterexample :
    (getEnv insertionSort asciiToUpper ':'
        ["FOO_HTTP_PROXY=x".toList, "FOO_FOO_HTTP_PROXY=y".toList]
        "/data".toList "foo".toList true =
      some [k0sManaged, "FOO_FOO_HTTP_PROXY=y".toList, "HTTP_PROXY=x".toList] ∧
    "FOO_HTTP_PROXY=x".toList ∉
      [k0sManaged, "FOO_FOO_HTTP_PROXY=y".toList, "HTTP_PROXY=x".toList]) ∧
    (getEnv insertionSort asciiToUpper ':'
        ["PROXY=x".toList, "HTTP_PROXY=y".toList, "HTTP_HTTP_PROXY=z".toList]
        "/data".toList "http".toList true =
      some [k0sManaged, "HTTP_PROXY=z".toList, "PROXY=x".toList] ∧
    "HTTP_PROXY=y".toList ∉ [k0sManaged, "HTTP_PROXY=z".toList, "PROXY=x".toList] ∧
    (List.map key
      ["PROXY=x".toList, "HTTP_PROXY=y".toList, "HTTP_HTTP_PROXY=z".toList]).Nodup) := by
  refine ⟨⟨by decide, by decide⟩, by decide, by decide, by decide⟩

/-- C4, amended: with `keepEnvPrefix = true`, for a variable name `N` that is none of `PATH`,
`HTTP_PROXY`, `HTTPS_PROXY`, `NO_PROXY` and none of the proxy names with the component prefix `P`
in front, and a parent environment (every entry with `'='`) that contains `N=x` and `P+N=y` and,
in case `P+N` is itself a proxy name, no entry with key `P+P+N`: `getEnv` returns a list that
contains `P+N=y` and `N=x` unchanged. -/
theorem getEnv_keep_prefix (sortSlice : List Str → (Str → Str → Bool) → List Str)
    (toUpper : Str → Str) (sep : Char) (environ : List Str) (dataDir component N x y : Str)
    (hperm : (sortSlice environ
      (fun a _ => hasPrefix a (componentPrefix toUpper component))).Perm environ)
    (hall : ∀ e ∈ environ, '=' ∈ e)
    (hN : '=' ∉ N) (hpre : '=' ∉ componentPrefix toUpper component)
    (hNpath : N ≠ "PATH".toList) (hNproxy : N ∉ proxyNames)
    (hNd : ∀ n ∈ proxyNames, N ≠ componentPrefix toUpper component ++ n)
    (hPP : componentPrefix toUpper component ++ N ∈ proxyNames → ∀ e ∈ environ,
      key e ≠ componentPrefix toUpper component ++ (componentPrefix toUpper component ++ N))
    (h0 : N ++ '=' :: x ∈ environ)
    (h1 : componentPrefix toUpper component ++ N ++ '=' :: y ∈ environ) :
    ∃ out, getEnv sortSlice toUpper sep environ dataDir component true = some out ∧
      componentPrefix toUpper component ++ N ++ '=' :: y ∈ out ∧ N ++ '=' :: x ∈ out := by
  obtain ⟨out, ho, hg⟩ := @getEnv_some _ _ sep _ dataDir _ true hperm hall
  refine ⟨_, hg, ?_, ?_⟩
  · have hk : '=' ∉ componentPrefix toUpper component ++ N := by
      intro h
      rcases List.mem_append.mp h with h | h
      · exact hpre h
      · exact hN h
    have hnd : ¬ demoted (componentPrefix toUpper component) true
        (componentPrefix toUpper component ++ N) := by
      rintro ⟨_, h | h⟩
      · rw [trimPrefix_append] at h; exact hNproxy h
      · exact Bool.noConfusion h
    have := getEnvLoop_complete _ _ _ _ _ _ _ ho _ _ y (hperm.mem_iff.mpr h1)
      (splitN2_append y hk) (by simp) (by
        intro e' he' hd heq
        rcases hd.2 with h | h
        · rw [heq] at h
          apply hPP h e' (hperm.mem_iff.mp he')
          rw [← heq]
          exact eq_append_of_hasPrefix hd.1
        · exact Bool.noConfusion h)
    rw [targetKey, if_neg hnd,
      emit_of_ne_path _ _ _ (componentPrefix_ne_path toUpper component N)] at this
    exact List.mem_cons_of_mem _ this
  · have hnd : ¬ demoted (componentPrefix toUpper component) true N := by
      rintro ⟨hp, h | h⟩
      · exact hNd _ h (eq_append_of_hasPrefix hp)
      · exact Bool.noConfusion h
    have := getEnvLoop_complete _ _ _ _ _ _ _ ho _ _ x (hperm.mem_iff.mpr h0)
      (splitN2_append x hN) (by simp) (by
        intro e' _ hd heq
        rcases hd.2 with h | h
        · exact hNproxy (heq ▸ h)
        · exact Bool.noConfusion h)
    rw [targetKey, if_neg hnd, emit_of_ne_path _ _ _ hNpath] at this
    exact List.mem_cons_of_mem _ this

/-- C4 amended, at the spec's example: component `foo`, base `BAR=x`, override `FOO_BAR=y`. -/
theorem getEnv_keep_prefix_witness :
    ∃ out, getEnv insertionSort asciiToUpper ':' ["BAR=x".toList, "FOO_BAR=y".toList]
        "/data".toList "foo".toList true = some out ∧
      componentPrefix asciiToUpper "foo".toList ++ "BAR".toList ++ '=' :: "y".toList ∈ out ∧
      "BAR".toList ++ '=' :: "x".toList ∈ out :=
  getEnv_keep_prefix insertionSort asciiToUpper ':' ["BAR=x".toList, "FOO_BAR=y".toList]
    "/data".toList "foo".toList "BAR".toList "x".toList "y".toList (by decide) (by decide)
    (by decide) (by decide) (by decide) (by decide) (by decide) (by decide) (by decide)
    (by decide)

theorem eq_of_key_eq_of_nodup {l : List Str} (hn : (l.map key).Nodup) {a b : Str}
    (ha : a ∈ l) (hb : b ∈ l) (h : key a = key b) : a = b :=
  List.inj_on_of_nodup_map hn ha hb h

theorem proxy_pairs_of_perm {pre : Str} {keep : Bool} {l environ : List Str}
    (hperm : l.Perm environ)
    (hPd : keep = true → ∀ n ∈ proxyNames, hasPrefix n pre = true → n ∈ environ.map key →
      pre ++ n ∉ environ.map key) :
    keep = true → ∀ n ∈ proxyNames, hasPrefix n pre = true → n ∈ l.map key →
      pre ++ n ∉ l.map key := by
  intro hk n hn hpn hin hin2
  exact hPd hk n hn hpn ((hperm.map key).mem_iff.mp hin) ((hperm.map key).mem_iff.mp hin2)

/-! ## Overrides -/

/-- C3, at the failing input: for component `foo`, `keepEnvPrefix = false` and `N = BAR`, the
parent environment `BAR=x`, `FOO_BAR=y`, `FOO_FOO_BAR=z` (entries with `'='`, distinct keys)
yields a list without `BAR=y`, with the stale `BAR=x`, and with an entry of key `FOO_BAR`:
`FOO_FOO_BAR` is demoted to `FOO_BAR`, the override `FOO_BAR=y` is skipped as overridden, and
the base `BAR` is never registered as overridden. -/
theorem getEnv_override_shadowed :
    getEnv insertionSort asciiToUpper ':'
        ["BAR=x".toList, "FOO_BAR=y".toList, "FOO_FOO_BAR=z".toList]
        "/data".toList "foo".toList false =
      some [k0sManaged, "FOO_BAR=z".toList, "BAR=x".toList] ∧
    "BAR=y".toList ∉ [k0sManaged, "FOO_BAR=z".toList, "BAR=x".toList] ∧
    "BAR=x".toList ∈ [k0sManaged, "FOO_BAR=z".toList, "BAR=x".toList] ∧
    key "FOO_BAR=z".toList = componentPrefix asciiToUpper "foo".toList ++ "BAR".toList ∧
    (List.map key ["BAR=x".toList, "FOO_BAR=y".toList, "FOO_FOO_BAR=z".toList]).Nodup := by
  refine ⟨by decide, by decide, by decide, by decide, by decide⟩

/-- Where the override is not shadowed, it replaces the base: let `N` be a proxy variable
name, or `keepEnvPrefix` be false; let the parent environment have entries with `'='` and
pairwise distinct keys, contain `P+N=y` and no entry with key `P+P+N`, and not hold both keys
`n` and `P+n` for a proxy name `n` that starts with `P` if `keepEnvPrefix` is true; let neither
`N` nor `P+N` be `_K0S_MANAGED`, and let the sorted slice hold the prefixed entries first.  Then
the list returned by `getEnv` contains the entry with key `N` and the value `y` (for `PATH`, `y`
behind the bin directory), every entry with key `N` in it is that entry, and it has no entry with
key `P+N`. -/
theorem getEnv_override (sortSlice : List Str → (Str → Str → Bool) → List Str)
    (toUpper : Str → Str) (sep : Char) (environ : List Str) (dataDir component N y : Str)
    (keep : Bool)
    (hperm : (sortSlice environ
      (fun a _ => hasPrefix a (componentPrefix toUpper component))).Perm environ)
    (hfront : (sortSlice environ
      (fun a _ => hasPrefix a (componentPrefix toUpper component))).Pairwise
      (fun a b => hasPrefix b (componentPrefix toUpper component) = true →
        hasPrefix a (componentPrefix toUpper component) = true))
    (hall : ∀ e ∈ environ, '=' ∈ e) (hnodup : (environ.map key).Nodup)
    (hN : '=' ∉ N) (hpre : '=' ∉ componentPrefix toUpper component)
    (hcase : N ∈ proxyNames ∨ keep = false)
    (h1 : componentPrefix toUpper component ++ N ++ '=' :: y ∈ environ)
    (hPP : ∀ e ∈ environ,
      key e ≠ componentPrefix toUpper component ++ (componentPrefix toUpper component ++ N))
    (hPd : keep = true → ∀ n ∈ proxyNames,
      hasPrefix n (componentPrefix toUpper component) = true → n ∈ environ.map key →
      componentPrefix toUpper component ++ n ∉ environ.map key)
    (hM : N ≠ "_K0S_MANAGED".toList ∧
      componentPrefix toUpper component ++ N ≠ "_K0S_MANAGED".toList) :
    ∃ out, getEnv sortSlice toUpper sep environ dataDir component keep = some out ∧
      emit sep dataDir N y ∈ out ∧
      (∀ o ∈ out, key o = N → o = emit sep dataDir N y) ∧
      (∀ o ∈ out, key o ≠ componentPrefix toUpper component ++ N) := by
  obtain ⟨out, ho, hg⟩ := @getEnv_some _ _ sep _ dataDir _ keep hperm hall
  have hk : '=' ∉ componentPrefix toUpper component ++ N := by
    intro h
    rcases List.mem_append.mp h with h | h
    · exact hpre h
    · exact hN h
  have hd : demoted (componentPrefix toUpper component) keep
      (componentPrefix toUpper component ++ N) := by
    refine ⟨hasPrefix_append _ _, ?_⟩
    rw [trimPrefix_append]
    exact hcase
  have hsall : ∀ e ∈ sortSlice environ
      (fun a _ => hasPrefix a (componentPrefix toUpper component)), '=' ∈ e :=
    fun e he => hall e (hperm.mem_iff.mp he)
  have hin : emit sep dataDir N y ∈ out := by
    have := getEnvLoop_complete _ _ _ _ _ _ _ ho _ _ y (hperm.mem_iff.mpr h1)
      (splitN2_append y hk) (by simp) (by
        intro e' he' hd' heq
        apply hPP e' (hperm.mem_iff.mp he')
        rw [← heq]
        exact eq_append_of_hasPrefix hd'.1)
    rw [targetKey, if_pos hd, trimPrefix_append] at this
    exact this
  have hnd := (getEnvLoop_nodup sep dataDir (componentPrefix toUpper component) keep _ [] out
    hsall ((hperm.map key).nodup_iff.mpr hnodup) hfront (by simp)
    (proxy_pairs_of_perm hperm hPd) ho).1
  refine ⟨_, hg, List.mem_cons_of_mem _ hin, ?_, ?_⟩
  · intro o hmem hkey
    rcases List.mem_cons.mp hmem with h | h
    · exfalso
      rw [h, key_k0sManaged] at hkey
      exact hM.1 hkey.symm
    · apply eq_of_key_eq_of_nodup hnd h hin
      rw [hkey, key_emit sep dataDir y hN]
  · intro o hmem hkey
    rcases List.mem_cons.mp hmem with h | h
    · rw [h, key_k0sManaged] at hkey
      exact hM.2 hkey.symm
    · obtain ⟨e, he, k, v, hs, _, hoe⟩ := getEnvLoop_mem _ _ _ _ _ _ _ ho o h
      obtain ⟨hke, _⟩ := splitN2_pair hs
      have hkeq : '=' ∉ k := hke ▸ key_no_eq e
      rw [hoe, key_emit sep dataDir v (targetKey_no_eq hkeq)] at hkey
      by_cases hd' : demoted (componentPrefix toUpper component) keep k
      · rw [targetKey, if_pos hd'] at hkey
        apply hPP e (hperm.mem_iff.mp he)
        rw [← hke, ← hkey]
        exact eq_append_of_hasPrefix hd'.1
      · rw [targetKey, if_neg hd'] at hkey
        exact hd' (hkey ▸ hd)

/-- The override replaces the base at the spec's example: base `HTTP_PROXY=a`, override
`FOO_HTTP_PROXY=b`, component `foo`, with `keepEnvPrefix = true`. -/
theorem getEnv_override_witness :
    getEnv insertionSort asciiToUpper ':' ["HTTP_PROXY=a".toList, "FOO_HTTP_PROXY=b".toList]
        "/data".toList "foo".toList true = some [k0sManaged, "HTTP_PROXY=b".toList] ∧
    ∃ out, getEnv insertionSort asciiToUpper ':'
        ["HTTP_PROXY=a".toList, "FOO_HTTP_PROXY=b".toList]
        "/data".toList "foo".toList true = some out ∧
      emit ':' "/data".toList "HTTP_PROXY".toList "b".toList ∈ out ∧
      (∀ o ∈ out, key o = "HTTP_PROXY".toList →
        o = emit ':' "/data".toList "HTTP_PROXY".toList "b".toList) ∧
      (∀ o ∈ out, key o ≠ componentPrefix asciiToUpper "foo".toList ++ "HTTP_PROXY".toList) :=
  ⟨by decide,
    getEnv_override insertionSort asciiToUpper ':'
      ["HTTP_PROXY=a".toList, "FOO_HTTP_PROXY=b".toList]
      "/data".toList "foo".toList "HTTP_PROXY".toList "b".toList true
      (by decide) (by decide) (by decide) (by decide) (by decide) (by decide) (by decide)
      (by decide) (by decide) (by decide) (by decide)⟩

/-! ## Distinct keys -/

/-- C6 as stated fails, twice.  A parent environment that itself holds `_K0S_MANAGED=yes` (one
entry, with `'='`) yields a list in which the key `_K0S_MANAGED` occurs twice.  For component
`no` with `keepEnvPrefix = true`, the parent environment `NO_NO_PROXY=b`, `NO_PROXY=a` (distinct
keys) yields the key `NO_PROXY` twice: `NO_PROXY=a` keeps its prefix and `NO_NO_PROXY=b` is
demoted to `NO_PROXY=b`. -/
theorem getEnv_distinct_keys_counterexample :
    (getEnv insertionSort asciiToUpper ':' ["_K0S_MANAGED=yes".toList] "/data".toList
        "etcd".toList false = some [k0sManaged, "_K0S_MANAGED=yes".toList] ∧
    ¬ (List.map key [k0sManaged, "_K0S_MANAGED=yes".toList]).Nodup) ∧
    (getEnv insertionSort asciiToUpper ':' ["NO_NO_PROXY=b".toList, "NO_PROXY=a".toList]
        "/data".toList "no".toList true =
      some [k0sManaged, "NO_PROXY=a".toList, "NO_PROXY=b".toList] ∧
    ¬ (List.map key [k0sManaged, "NO_PROXY=a".toList, "NO_PROXY=b".toList]).Nodup ∧
    (List.map key ["NO_NO_PROXY=b".toList, "NO_PROXY=a".toList]).Nodup) := by
  refine ⟨⟨by decide, by decide⟩, by decide, by decide, by decide⟩

/-- C6, amended: for a parent environment whose entries contain `'='` and have pairwise distinct
keys, none of which is passed on under the key `_K0S_MANAGED` (no entry with that key that keeps
its key, no demoted entry with key `P+_K0S_MANAGED`), which does not hold both keys `n` and
`P+n` for a proxy name `n` that starts with the component prefix `P` if `keepEnvPrefix` is true,
and when the sorted slice holds the prefixed entries first: `getEnv` returns a list that
contains `_K0S_MANAGED=yes` and has pairwise distinct keys. -/
theorem getEnv_distinct_keys (sortSlice : List Str → (Str → Str → Bool) → List Str)
    (toUpper : Str → Str) (sep : Char) (environ : List Str) (dataDir component : Str)
    (keep : Bool)
    (hperm : (sortSlice environ
      (fun a _ => hasPrefix a (componentPrefix toUpper component))).Perm environ)
    (hfront : (sortSlice environ
      (fun a _ => hasPrefix a (componentPrefix toUpper component))).Pairwise
      (fun a b => hasPrefix b (componentPrefix toUpper component) = true →
        hasPrefix a (componentPrefix toUpper component) = true))
    (hall : ∀ e ∈ environ, '=' ∈ e) (hnodup : (environ.map key).Nodup)
    (hPd : keep = true → ∀ n ∈ proxyNames,
      hasPrefix n (componentPrefix toUpper component) = true → n ∈ environ.map key →
      componentPrefix toUpper component ++ n ∉ environ.map key)
    (hM : ∀ e ∈ environ,
      targetKey (componentPrefix toUpper component) keep (key e) ≠ "_K0S_MANAGED".toList) :
    ∃ out, getEnv sortSlice toUpper sep environ dataDir component keep = some out ∧
      k0sManaged ∈ out ∧ (out.map key).Nodup := by
  obtain ⟨out, ho, hg⟩ := @getEnv_some _ _ sep _ dataDir _ keep hperm hall
  have hsall : ∀ e ∈ sortSlice environ
      (fun a _ => hasPrefix a (componentPrefix toUpper component)), '=' ∈ e :=
    fun e he => hall e (hperm.mem_iff.mp he)
  have hnd := (getEnvLoop_nodup sep dataDir (componentPrefix toUpper component) keep _ [] out
    hsall ((hperm.map key).nodup_iff.mpr hnodup) hfront (by simp)
    (proxy_pairs_of_perm hperm hPd) ho).1
  refine ⟨_, hg, List.mem_cons_self _ _, ?_⟩
  rw [List.map_cons, List.nodup_cons]
  refine ⟨?_, hnd⟩
  intro hin
  obtain ⟨o, hmem, hkey⟩ := List.mem_map.mp hin
  rw [key_k0sManaged] at hkey
  obtain ⟨e, he, k, v, hs, _, hoe⟩ := getEnvLoop_mem _ _ _ _ _ _ _ ho o hmem
  obtain ⟨hke, _⟩ := splitN2_pair hs
  have hkeq : '=' ∉ k := hke ▸ key_no_eq e
  rw [hoe, key_emit sep dataDir v (targetKey_no_eq hkeq)] at hkey
  exact hM e (hperm.mem_iff.mp he) (hke ▸ hkey)

/-- C6 amended, at component `no` with `keepEnvPrefix = true`: a base variable with its
override, and the proxy variable `NO_PROXY`, which carries the component prefix. -/
theorem getEnv_distinct_keys_witness :
    ∃ out, getEnv insertionSort asciiToUpper ':'
        ["HTTP_PROXY=a".toList, "NO_PROXY=n".toList, "NO_HTTP_PROXY=b".toList]
        "/var/lib/k0s".toList "no".toList true = some out ∧
      k0sManaged ∈ out ∧ (out.map key).Nodup :=
  getEnv_distinct_keys insertionSort asciiToUpper ':'
    ["HTTP_PROXY=a".toList, "NO_PROXY=n".toList, "NO_HTTP_PROXY=b".toList]
    "/var/lib/k0s".toList "no".toList true (by decide) (by decide) (by decide) (by decide)
    (by decide) (by decide)

/-! ## Parsing the PID file -/

theorem parseDigits_some_all :
    ∀ (l : List Char) (n m : Nat), parseDigits l n = some m → l.all Char.isDigit = true := by
  intro l
  induction l with
  | nil => intro n m _; rfl
  | cons c cs ih =>
    intro n m h
    rw [parseDigits] at h
    by_cases hc : c.isDigit = true
    · rw [if_pos hc] at h
      simp only [List.all_cons, hc, Bool.true_and]
      exact ih _ _ h
    · rw [if_neg hc] at h
      exact Option.noConfusion h

theorem isDecimal_of_parseDigits {body : Str} {m : Nat} (hb : body ≠ [])
    (h : parseDigits body 0 = some m) : isDecimal body = true := by
  unfold isDecimal
  rw [parseDigits_some_all body 0 m h]
  cases body with
  | nil => exact absurd rfl hb
  | cons a l => rfl

theorem isDecimal_of_atoiDigits {neg : Bool} {body : Str} {p : Int}
    (h : atoiDigits neg body = .ok p) : isDecimal body = true := by
  unfold atoiDigits at h
  by_cases hb : body = []
  · rw [if_pos hb] at h; cases h
  · rw [if_neg hb] at h
    cases hp : parseDigits body 0 with
    | none => rw [hp] at h; cases h
    | some m => exact isDecimal_of_parseDigits hb hp

/-- A string accepted by `Atoi` is an optional sign followed by one or more digits. -/
theorem isSignedDecimal_of_Atoi {s : Str} {p : Int} (h : Atoi s = .ok p) :
    isSignedDecimal s = true := by
  unfold Atoi at h
  split at h
  · simp only [isSignedDecimal]; exact isDecimal_of_atoiDigits h
  · simp only [isSignedDecimal]; exact isDecimal_of_atoiDigits h
  · rename_i h1 h2
    unfold isSignedDecimal
    split
    · exact absurd rfl (h1 _)
    · exact absurd rfl (h2 _)
    · exact isDecimal_of_atoiDigits h

/-- C9 as stated fails: the content `-5` followed by a newline denotes a negative number, yet
`maybeKillPidFile` returns no parse error and opens a process handle for PID `-5`. -/
theorem maybeKillPidFile_negative_counterexample :
    isDecimal (trimSuffixNewline "-5\n".toList) = false ∧
    maybeKillPidFile sampleBin 1 (.content "-5\n".toList) (fun _ => .ok foreignHandle) [] =
      (none, [.openPID (-5), .cmdline, .close]) := by
  constructor
  · decide
  · decide

/-- C9, amended: if the content of the PID file, after removing one trailing newline, is not an
optional sign followed by one or more decimal digits, `maybeKillPidFile` returns a parse error
and performs no operation: it opens no process handle. -/
theorem maybeKillPidFile_parse_error (binPath : Str) (ticks : Nat) (data : Str)
    (openPID : Int → Except GoError procHandle) (tr : Trace)
    (h : isSignedDecimal (trimSuffixNewline data) = false) :
    ∃ err, maybeKillPidFile binPath ticks (.content data) openPID tr =
      (some (.wrap "failed to parse PID file" err), tr) := by
  cases ha : Atoi (trimSuffixNewline data) with
  | ok p =>
    rw [isSignedDecimal_of_Atoi ha] at h
    exact Bool.noConfusion h
  | error err =>
    refine ⟨err, ?_⟩
    unfold maybeKillPidFile
    simp only []
    rw [ha]

/-- C9 amended, at a PID file that holds no number. -/
theorem maybeKillPidFile_parse_error_witness :
    ∃ err, maybeKillPidFile sampleBin 3 (.content "12a4\n".toList)
        (fun _ => .ok foreignHandle) [] =
      (some (.wrap "failed to parse PID file" err), []) :=
  maybeKillPidFile_parse_error sampleBin 3 "12a4\n".toList (fun _ => .ok foreignHandle) []
    (by decide)

/-! ## Start and stop -/

theorem launch_returned {w : World} {s1 : Supervisor} {ev : List Event} {r : SuperviseResult}
    (h : launch w s1 ev = .returned r) :
    r.s.log = s1.log ∧ r.s.cancel = some () ∧ r.loop ≠ none ∧
      r.s.BinPath = s1.BinPath := by
  unfold launch at h
  simp only [] at h
  split at h
  · split at h <;> cases h
  · simp only [Outcome.returned.injEq] at h
    subst h
    simp

/-- The method `Supervise` keeps the logger set on every supervisor whose cancel function is
set. -/
theorem Supervise_log_of_cancel (w : World) (s : Supervisor) (r : SuperviseResult)
    (hinv : s.cancel ≠ none → s.log ≠ none) (h : Supervise w s = .returned r) :
    r.s.log ≠ none := by
  unfold Supervise at h
  by_cases hc : s.cancel ≠ none
  · rw [if_pos hc] at h
    cases hl : s.log with
    | none => exact absurd hl (hinv hc)
    | some l =>
      rw [hl] at h
      simp only [Outcome.returned.injEq] at h
      subst h
      simp [hl]
  · rw [if_neg hc] at h
    simp only [] at h
    cases hf : fatalError
      (maybeKillPidFile (prepare s).BinPath w.ticks w.pidFile w.openPID []).1 with
    | some err =>
      rw [hf] at h
      simp only [Outcome.returned.injEq] at h
      subst h
      simp [prepare]
    | none =>
      rw [hf] at h
      simp only [] at h
      rw [(launch_returned h).1]
      simp [prepare]

/-- C10: on a supervisor that is already started (its cancel function is set, and with it the
logger, which `Supervise` sets before the cancel function), `Supervise` returns nil, does nothing
but log a warning (no reconciliation, no process start), and leaves the supervisor unchanged. -/
theorem Supervise_already_started (w : World) (s : Supervisor)
    (hc : s.cancel ≠ none) (hl : s.log ≠ none) :
    Supervise w s =
      .returned { err := none, s := s, events := [.log .warn "Already started"],
                  loop := none } := by
  unfold Supervise
  rw [if_pos hc]
  cases hlog : s.log with
  | none => exact absurd hlog hl
  | some l => rfl

/-- C10, at the sample started supervisor. -/
theorem Supervise_already_started_witness :
    Supervise (sampleWorld [genOk]) startedSupervisor =
      .returned { err := none, s := startedSupervisor,
                  events := [.log .warn "Already started"], loop := none } :=
  Supervise_already_started (sampleWorld [genOk]) startedSupervisor (by decide) (by decide)

/-- C11, at the failing input: `Stop` on a supervisor on which `Supervise` was never called
(`cancel` and `log` unset) panics: the warning is logged through the nil logger. -/
theorem Stop_never_started_panics (phase : LoopPhase) :
    sampleSupervisor.cancel = none ∧ sampleSupervisor.log = none ∧
      Stop sampleSupervisor phase = .panic := by
  exact ⟨rfl, rfl, rfl⟩

/-! ## Shutdown -/

theorem count_shutdownRequest (r : Option GoError) :
    List.count Event.requestGracefulShutdown (shutdownRequest r) = 1 ∧
      Event.kill ∉ shutdownRequest r := by
  cases r with
  | none => exact ⟨by decide, by decide⟩
  | some e =>
    constructor
    · simp [shutdownRequest, List.count_cons]
    · simp [shutdownRequest]

theorem count_shutdownRequests (rs : List (Option GoError)) :
    List.count Event.requestGracefulShutdown (rs.map shutdownRequest).flatten = rs.length ∧
      Event.kill ∉ (rs.map shutdownRequest).flatten := by
  induction rs with
  | nil => simp
  | cons r rs ih =>
    obtain ⟨h1, h2⟩ := count_shutdownRequest r
    obtain ⟨h3, h4⟩ := ih
    constructor
    · rw [List.map_cons, List.flatten_cons, List.count_append, h1, h3, List.length_cons]; omega
    · rw [List.map_cons, List.flatten_cons]
      intro h
      rcases List.mem_append.mp h with h | h
      · exact h2 h
      · exact h4 h

/-- C12 as stated fails: the child ignores two graceful requests, each for the whole stop
timeout, and exits on the third; `Stop` returns, and no forceful kill was issued. -/
theorem Stop_no_forced_kill_counterexample :
    ∃ s ev, Stop startedSupervisor (.waiting (.shutdown none [none, none])) =
        .returned (s, ev) ∧
      Event.kill ∉ ev ∧ List.count Event.requestGracefulShutdown ev = 3 := by
  refine ⟨_, _, rfl, ?_, ?_⟩
  · decide
  · decide

/-- C12, amended: in the shutdown path (a started supervisor, `Stop` cancelling the context
while the goroutine waits in `processWaitQuit`), when the child exits after the graceful requests
`first :: retries` (one more after every expiry of the stop timeout), `Stop` returns, the
graceful termination was requested `retries.length + 1` times and no forceful kill was issued; in
particular a child that exits on the first request gets one request and no kill.  A child that
never exits makes `Stop` block. -/
theorem Stop_graceful_only (s : Supervisor) (first : Option GoError)
    (retries : List (Option GoError))
    (hc : s.cancel ≠ none) (hl : s.log ≠ none) (hd : s.done ≠ none) :
    (∃ s1 ev, Stop s (.waiting (.shutdown first retries)) = .returned (s1, ev) ∧
      s1.cancel = none ∧ Event.kill ∉ ev ∧
      List.count Event.requestGracefulShutdown ev = retries.length + 1) ∧
    Stop s (.waiting .shutdownForever) = .blocked := by
  have hcond : ¬ (s.cancel = none ∨ s.log = none) := by
    rintro (h | h)
    · exact hc h
    · exact hl h
  obtain ⟨h3, h4⟩ := count_shutdownRequests (first :: retries)
  cases hdone : s.done with
  | none => exact absurd hdone hd
  | some d =>
    constructor
    · refine ⟨{ s with cancel := none, done := some true },
        [.log .debug "Sending stop message", .cancel,
          .log .debug "Waiting for stopping is done"] ++
          (((first :: retries).map shutdownRequest).flatten ++ [.removePidFile]) ++
          [.closeDone], ?_, rfl, ?_, ?_⟩
      · unfold Stop
        rw [if_neg hcond, hdone]
        simp only [processWaitQuit]
      · intro h
        rcases List.mem_append.mp h with h | h
        · rcases List.mem_append.mp h with h | h
          · revert h; decide
          · rcases List.mem_append.mp h with h | h
            · exact h4 h
            · revert h; decide
        · revert h; decide
      · rw [List.count_append, List.count_append, List.count_append, h3]
        simp [List.count_cons]
    · unfold Stop
      rw [if_neg hcond, hdone]
      simp only [processWaitQuit]

/-- C12 amended, at a child that exits on the first graceful request. -/
theorem Stop_graceful_only_witness :
    ∃ s1 ev, Stop startedSupervisor (.waiting (.shutdown none [])) = .returned (s1, ev) ∧
      s1.cancel = none ∧ Event.kill ∉ ev ∧
      List.count Event.requestGracefulShutdown ev = 0 + 1 :=
  (Stop_graceful_only startedSupervisor none [] (by decide) (by decide) (by decide)).1

/-! ## A failed first start -/

/-- C15, at the failing input: the first `cmd.Start()` fails, `Supervise` returns the error
and leaves the cancel function set; a second `Supervise` returns nil as already started. -/
theorem Supervise_after_failed_start :
    ∃ r, Supervise (sampleWorld [genStartFails]) sampleSupervisor = .returned r ∧
      r.err = some (.base (.other 2)) ∧ r.loop = some .firstStartFailed ∧
      r.s.cancel = some () ∧
      Supervise (sampleWorld [genStartFails]) r.s =
        .returned { err := none, s := r.s, events := [.log .warn "Already started"],
                    loop := none } := by
  refine ⟨_, rfl, rfl, rfl, rfl, ?_⟩
  rfl

/-! ## The supervising loop -/

theorem superviseLoop_panicked {sortSlice : List Str → (Str → Str → Bool) → List Str}
    {toUpper : Str → Str}
    {sep : Char} {s : Supervisor} {g : Generation} {gs : List Generation} {restarts : Nat}
    {cmd : Option Cmd} {started : Option (Option GoError)} {ev ev1 : List Event}
    (h : attempt sortSlice toUpper sep s g cmd = .panicked ev1) :
    superviseLoop sortSlice toUpper sep s (g :: gs) restarts cmd started ev =
      { started := started, ending := .panicked, restarts := restarts, cmd := cmd,
        events := ev ++ ev1 } := by
  rw [superviseLoop, h]

theorem superviseLoop_failed_first {sortSlice : List Str → (Str → Str → Bool) → List Str}
    {toUpper : Str → Str}
    {sep : Char} {s : Supervisor} {g : Generation} {gs : List Generation}
    {cmd cmd1 : Option Cmd} {started : Option (Option GoError)} {ev ev1 : List Event}
    {err : GoError} (h : attempt sortSlice toUpper sep s g cmd = .failed err cmd1 ev1) :
    superviseLoop sortSlice toUpper sep s (g :: gs) 0 cmd started ev =
      { started := some (some err), ending := .firstStartFailed, restarts := 0, cmd := cmd1,
        events := ev ++ ev1 ++ [.log .warn "Failed to start", .sendStarted (some err)] } := by
  rw [superviseLoop, h]
  simp

theorem superviseLoop_failed_later {sortSlice : List Str → (Str → Str → Bool) → List Str}
    {toUpper : Str → Str}
    {sep : Char} {s : Supervisor} {g : Generation} {gs : List Generation} {restarts : Nat}
    {cmd cmd1 : Option Cmd} {started : Option (Option GoError)} {ev ev1 : List Event}
    {err : GoError} (h : attempt sortSlice toUpper sep s g cmd = .failed err cmd1 ev1)
    (hr : 1 ≤ restarts) :
    superviseLoop sortSlice toUpper sep s (g :: gs) restarts cmd started ev =
      if g.respawnCanceled then
        { started := started, ending := .respawnCanceled, restarts := restarts, cmd := cmd1,
          events := ev ++ ev1 ++ [.log .warn "Failed to start"] ++ respawnEvents true }
      else
        superviseLoop sortSlice toUpper sep s gs restarts cmd1 started
          (ev ++ ev1 ++ [.log .warn "Failed to start"] ++ respawnEvents false) := by
  have h0 : ¬ restarts = 0 := by omega
  rw [superviseLoop, h]
  simp only []
  rw [if_neg h0]

theorem superviseLoop_started {sortSlice : List Str → (Str → Str → Bool) → List Str}
    {toUpper : Str → Str}
    {sep : Char} {s : Supervisor} {g : Generation} {gs : List Generation} {restarts : Nat}
    {cmd : Option Cmd} {started : Option (Option GoError)} {ev ev1 : List Event}
    {c : Cmd} {pid : Int} (h : attempt sortSlice toUpper sep s g cmd = .started c pid ev1) :
    superviseLoop sortSlice toUpper sep s (g :: gs) restarts cmd started ev =
      match processWaitQuit g.wait with
      | (none, ev3) =>
        { started := if restarts = 0 then some none else started, ending := .stuck,
          restarts := restarts + 1, cmd := some c,
          events := ev ++ ev1 ++ [.writePidFile pid] ++
            (if restarts = 0 then [.log .info "Started successfully, go nuts",
              .sendStarted none] else [.log .info "Restarted"]) ++ ev3 }
      | (some true, ev3) =>
        { started := if restarts = 0 then some none else started, ending := .shutdown,
          restarts := restarts + 1, cmd := some c,
          events := ev ++ ev1 ++ [.writePidFile pid] ++
            (if restarts = 0 then [.log .info "Started successfully, go nuts",
              .sendStarted none] else [.log .info "Restarted"]) ++ ev3 }
      | (some false, ev3) =>
        if g.respawnCanceled then
          { started := if restarts = 0 then some none else started,
            ending := .respawnCanceled, restarts := restarts + 1, cmd := some c,
            events := ev ++ ev1 ++ [.writePidFile pid] ++
              (if restarts = 0 then [.log .info "Started successfully, go nuts",
                .sendStarted none] else [.log .info "Restarted"]) ++ ev3 ++
              respawnEvents true }
        else
          superviseLoop sortSlice toUpper sep s gs (restarts + 1) (some c)
            (if restarts = 0 then some none else started)
            (ev ++ ev1 ++ [.writePidFile pid] ++
              (if restarts = 0 then [.log .info "Started successfully, go nuts",
                .sendStarted none] else [.log .info "Restarted"]) ++ ev3 ++
              respawnEvents false) := by
  rw [superviseLoop, h]

theorem attempt_panicked {sortSlice : List Str → (Str → Str → Bool) → List Str}
    {toUpper : Str → Str}
    {sep : Char} {s : Supervisor} {g : Generation} {cmd : Option Cmd} {ev1 : List Event}
    (h : attempt sortSlice toUpper sep s g cmd = .panicked ev1) :
    getEnv sortSlice toUpper sep g.environ s.DataDir s.Name s.KeepEnvPrefix = none := by
  unfold attempt at h
  simp only [] at h
  split at h
  · cases h
  · split at h
    · assumption
    · split at h <;> cases h

theorem attempt_events_no_delay {sortSlice : List Str → (Str → Str → Bool) → List Str}
    {toUpper : Str → Str}
    {sep : Char} {s : Supervisor} {g : Generation} {cmd : Option Cmd} :
    (∀ err cmd1 ev1, attempt sortSlice toUpper sep s g cmd = .failed err cmd1 ev1 →
      List.count Event.respawnDelay ev1 = 0) ∧
    (∀ c pid ev1, attempt sortSlice toUpper sep s g cmd = .started c pid ev1 →
      List.count Event.respawnDelay ev1 = 0) := by
  unfold attempt
  simp only []
  constructor
  · intro err cmd1 ev1 h
    split at h
    · injection h with _ _ h3
      subst h3
      by_cases hf : s.hasCleanBeforeFn = true <;> simp [hf, List.count_cons]
    · split at h
      · cases h
      · split at h
        · injection h with _ _ h3
          subst h3
          by_cases hf : s.hasCleanBeforeFn = true <;> simp [hf, List.count_cons]
        · cases h
  · intro c pid ev1 h
    split at h
    · cases h
    · split at h
      · cases h
      · split at h
        · cases h
        · injection h with _ _ h3
          subst h3
          by_cases hf : s.hasCleanBeforeFn = true <;> simp [hf, List.count_cons]

theorem processWaitQuit_exited (err : Option GoError) :
    ∃ ev3, processWaitQuit (.exited err) = (some false, ev3) ∧
      List.count Event.respawnDelay ev3 = 0 := by
  cases err with
  | none => exact ⟨_, rfl, by decide⟩
  | some e => exact ⟨_, rfl, by simp [List.count_cons]⟩

theorem count_respawnEvents (b : Bool) :
    List.count Event.respawnDelay (respawnEvents b) = 1 := by
  cases b <;> simp [respawnEvents, List.count_cons]

/-- Once a start has succeeded, and as long as the context is not cancelled, every generation
ends in the respawn delay and the next iteration: the loop is still running after any number of
failed clean-ups, failed starts and exits of the child. -/
theorem superviseLoop_keeps_going (sortSlice : List Str → (Str → Str → Bool) → List Str)
    (toUpper : Str → Str)
    (sep : Char) (s : Supervisor) :
    ∀ (gens : List Generation) (restarts : Nat) (cmd : Option Cmd)
      (started : Option (Option GoError)) (ev : List Event), 1 ≤ restarts →
      (∀ g ∈ gens, g.respawnCanceled = false ∧ (∃ err, g.wait = .exited err) ∧
        getEnv sortSlice toUpper sep g.environ s.DataDir s.Name s.KeepEnvPrefix ≠ none) →
      (superviseLoop sortSlice toUpper sep s gens restarts cmd started ev).ending = .running ∧
      (superviseLoop sortSlice toUpper sep s gens restarts cmd started ev).started = started ∧
      List.count Event.respawnDelay
          (superviseLoop sortSlice toUpper sep s gens restarts cmd started ev).events =
        List.count Event.respawnDelay ev + gens.length := by
  intro gens
  induction gens with
  | nil => intro restarts cmd started ev _ _; simp [superviseLoop]
  | cons g gs ih =>
    intro restarts cmd started ev hr hall
    obtain ⟨hnc, ⟨werr, hw⟩, henv⟩ := hall g (List.mem_cons_self _ _)
    have hall' : ∀ g' ∈ gs, g'.respawnCanceled = false ∧ (∃ err, g'.wait = .exited err) ∧
        getEnv sortSlice toUpper sep g'.environ s.DataDir s.Name s.KeepEnvPrefix ≠ none :=
      fun g' hg' => hall g' (List.mem_cons_of_mem _ hg')
    have h0 : ¬ restarts = 0 := by omega
    obtain ⟨hcf, hcs⟩ := @attempt_events_no_delay sortSlice toUpper sep s g cmd
    cases ha : attempt sortSlice toUpper sep s g cmd with
    | panicked ev1 => exact absurd (attempt_panicked ha) henv
    | failed err cmd1 ev1 =>
      rw [superviseLoop_failed_later ha hr, hnc]
      simp only [Bool.false_eq_true, if_false]
      obtain ⟨i1, i2, i3⟩ := ih restarts cmd1 started
        (ev ++ ev1 ++ [.log .warn "Failed to start"] ++ respawnEvents false) hr hall'
      refine ⟨i1, i2, ?_⟩
      rw [i3, List.count_append, List.count_append, List.count_append, hcf _ _ _ ha,
        count_respawnEvents, List.length_cons]
      simp [List.count_cons]
      omega
    | started c pid ev1 =>
      obtain ⟨ev3, hp, hc3⟩ := processWaitQuit_exited werr
      rw [superviseLoop_started ha, hw, hp]
      simp only [hnc, Bool.false_eq_true, if_false, if_neg h0]
      obtain ⟨i1, i2, i3⟩ := ih (restarts + 1) (some c) started
        (ev ++ ev1 ++ [.writePidFile pid] ++ [.log .info "Restarted"] ++ ev3 ++
          respawnEvents false) (by omega) hall'
      refine ⟨i1, i2, ?_⟩
      rw [i3, List.count_append, List.count_append, List.count_append, List.count_append,
        List.count_append, hcs _ _ _ ha, hc3, count_respawnEvents, List.length_cons]
      simp [List.count_cons]
      omega

/-- Once a start has succeeded, the goroutine returns only when the context was cancelled:
during a wait (shutdown) or during a respawn delay. -/
theorem superviseLoop_returns_on_cancel (sortSlice : List Str → (Str → Str → Bool) → List Str)
    (toUpper : Str → Str)
    (sep : Char) (s : Supervisor) :
    ∀ (gens : List Generation) (restarts : Nat) (cmd : Option Cmd)
      (started : Option (Option GoError)) (ev : List Event), 1 ≤ restarts →
      (superviseLoop sortSlice toUpper sep s gens restarts cmd started ev).ending.returned = true →
      ∃ g ∈ gens, g.respawnCanceled = true ∨ ∃ first retries, g.wait = .shutdown first retries := by
  intro gens
  induction gens with
  | nil => intro restarts cmd started ev _ h; simp [superviseLoop, LoopEnd.returned] at h
  | cons g gs ih =>
    intro restarts cmd started ev hr h
    cases ha : attempt sortSlice toUpper sep s g cmd with
    | panicked ev1 =>
      rw [superviseLoop_panicked ha] at h
      simp [LoopEnd.returned] at h
    | failed err cmd1 ev1 =>
      rw [superviseLoop_failed_later ha hr] at h
      by_cases hc : g.respawnCanceled = true
      · exact ⟨g, List.mem_cons_self _ _, Or.inl hc⟩
      · rw [if_neg hc] at h
        obtain ⟨g', hg', r⟩ := ih _ _ _ _ hr h
        exact ⟨g', List.mem_cons_of_mem _ hg', r⟩
    | started c pid ev1 =>
      rw [superviseLoop_started ha] at h
      cases hw : g.wait with
      | shutdown first retries => exact ⟨g, List.mem_cons_self _ _, Or.inr ⟨first, retries, hw⟩⟩
      | shutdownForever =>
        rw [hw] at h
        simp [processWaitQuit, LoopEnd.returned] at h
      | exited werr =>
        obtain ⟨ev3, hp, _⟩ := processWaitQuit_exited werr
        rw [hw, hp] at h
        simp only [] at h
        by_cases hc : g.respawnCanceled = true
        · exact ⟨g, List.mem_cons_self _ _, Or.inl hc⟩
        · rw [if_neg hc] at h
          obtain ⟨g', hg', r⟩ := ih _ _ _ _ (by omega) h
          exact ⟨g', List.mem_cons_of_mem _ hg', r⟩

theorem superviseLoop_started_later (sortSlice : List Str → (Str → Str → Bool) → List Str)
    (toUpper : Str → Str)
    (sep : Char) (s : Supervisor) :
    ∀ (gens : List Generation) (restarts : Nat) (cmd : Option Cmd)
      (started : Option (Option GoError)) (ev : List Event), 1 ≤ restarts →
      (superviseLoop sortSlice toUpper sep s gens restarts cmd started ev).started = started := by
  intro gens
  induction gens with
  | nil => intro restarts cmd started ev _; simp [superviseLoop]
  | cons g gs ih =>
    intro restarts cmd started ev hr
    have h0 : ¬ restarts = 0 := by omega
    cases ha : attempt sortSlice toUpper sep s g cmd with
    | panicked ev1 => rw [superviseLoop_panicked ha]
    | failed err cmd1 ev1 =>
      rw [superviseLoop_failed_later ha hr]
      by_cases hc : g.respawnCanceled = true
      · rw [if_pos hc]
      · rw [if_neg hc]; exact ih _ _ _ _ hr
    | started c pid ev1 =>
      rw [superviseLoop_started ha]
      rcases hp : processWaitQuit g.wait with ⟨_ | b, ev3⟩
      · simp only [if_neg h0]
      · cases b with
        | true => simp only [if_neg h0]
        | false =>
          simp only [if_neg h0]
          by_cases hc : g.respawnCanceled = true
          · rw [if_pos hc]
          · rw [if_neg hc]; exact ih _ _ _ _ (by omega)

/-- C13: once one start has succeeded (`restarts ≥ 1`), the supervising loop goes on through
the respawn delay to the next iteration after every failed clean-up, failed start or exit of the
child, as long as the context is not cancelled: after any such generations it is still running,
with one respawn delay per generation; and it returns only when the context was cancelled,
during a wait or during a respawn delay. -/
theorem superviseLoop_never_gives_up (sortSlice : List Str → (Str → Str → Bool) → List Str)
    (toUpper : Str → Str)
    (sep : Char) (s : Supervisor) (gens : List Generation) (restarts : Nat)
    (cmd : Option Cmd) (started : Option (Option GoError)) (ev : List Event)
    (hr : 1 ≤ restarts) :
    ((∀ g ∈ gens, g.respawnCanceled = false ∧ (∃ err, g.wait = .exited err) ∧
        getEnv sortSlice toUpper sep g.environ s.DataDir s.Name s.KeepEnvPrefix ≠ none) →
      (superviseLoop sortSlice toUpper sep s gens restarts cmd started ev).ending = .running ∧
      List.count Event.respawnDelay
          (superviseLoop sortSlice toUpper sep s gens restarts cmd started ev).events =
        List.count Event.respawnDelay ev + gens.length) ∧
    ((superviseLoop sortSlice toUpper sep s gens restarts cmd started ev).ending.returned = true →
      ∃ g ∈ gens, g.respawnCanceled = true ∨
        ∃ first retries, g.wait = .shutdown first retries) := by
  constructor
  · intro hall
    obtain ⟨h1, _, h3⟩ :=
      superviseLoop_keeps_going sortSlice toUpper sep s gens restarts cmd started ev hr hall
    exact ⟨h1, h3⟩
  · exact superviseLoop_returns_on_cancel sortSlice toUpper sep s gens restarts cmd started ev hr

/-- C13, after one successful start: a failed start, a failed clean-up and an exit of the child
leave the loop running, after three respawn delays. -/
theorem superviseLoop_never_gives_up_witness :
    (superviseLoop insertionSort asciiToUpper ':' cleaningSupervisor [genStartFails, genCleanFails, genOk] 1
        none (some none) []).ending = .running ∧
      List.count Event.respawnDelay
          (superviseLoop insertionSort asciiToUpper ':' cleaningSupervisor
            [genStartFails, genCleanFails, genOk] 1 none (some none) []).events =
        List.count Event.respawnDelay [] + [genStartFails, genCleanFails, genOk].length :=
  (superviseLoop_never_gives_up insertionSort asciiToUpper ':' cleaningSupervisor
    [genStartFails, genCleanFails, genOk] 1 none (some none) [] (by decide)).1
    (by
      intro g hg
      simp only [List.mem_cons, List.mem_singleton, List.not_mem_nil, or_false] at hg
      rcases hg with h | h | h <;> subst h <;> exact ⟨rfl, ⟨_, rfl⟩, by decide⟩)

/-! ## A failing clean-up -/

theorem attempt_clean_failure {sortSlice : List Str → (Str → Str → Bool) → List Str}
    {toUpper : Str → Str}
    {sep : Char} {s : Supervisor} {g : Generation} {cmd : Option Cmd} {err : GoError}
    (hfn : s.hasCleanBeforeFn = true) (hcl : g.clean = some err) :
    attempt sortSlice toUpper sep s g cmd =
      .failed err cmd
        [.cleanBefore, .log .warn "Failed to clean before running the process"] := by
  unfold attempt
  simp [hfn, hcl]

/-- C14 as stated fails: on the very first iteration a failing `CleanBeforeFn` makes the loop
send the error on `started` and return, without any respawn delay. -/
theorem superviseLoop_clean_failure_counterexample :
    (superviseLoop insertionSort asciiToUpper ':' cleaningSupervisor [genCleanFails, genOk] 0 none none
        []).ending = .firstStartFailed ∧
    (superviseLoop insertionSort asciiToUpper ':' cleaningSupervisor [genCleanFails, genOk] 0 none none
        []).started = some (some (.base (.other 5))) ∧
    Event.respawnDelay ∉
      (superviseLoop insertionSort asciiToUpper ':' cleaningSupervisor [genCleanFails, genOk] 0 none none
        []).events := by
  refine ⟨rfl, rfl, ?_⟩
  decide

/-- C14, amended: in every iteration after a start has succeeded (`restarts ≥ 1`), a failing
`CleanBeforeFn` starts no process (`s.cmd` is unchanged, no start among the events) and the loop
goes to the respawn delay and on to the next iteration (it returns only if the context is
cancelled during the delay).  In the first iteration (`restarts = 0`) the error is sent on
`started` and the loop returns. -/
theorem superviseLoop_clean_failure (sortSlice : List Str → (Str → Str → Bool) → List Str)
    (toUpper : Str → Str)
    (sep : Char) (s : Supervisor) (g : Generation) (gs : List Generation) (restarts : Nat)
    (cmd : Option Cmd) (started : Option (Option GoError)) (ev : List Event) (err : GoError)
    (hfn : s.hasCleanBeforeFn = true) (hcl : g.clean = some err) :
    (1 ≤ restarts →
      superviseLoop sortSlice toUpper sep s (g :: gs) restarts cmd started ev =
        if g.respawnCanceled then
          { started := started, ending := .respawnCanceled, restarts := restarts, cmd := cmd,
            events := ev ++
              [.cleanBefore, .log .warn "Failed to clean before running the process"] ++
              [.log .warn "Failed to start"] ++ respawnEvents true }
        else
          superviseLoop sortSlice toUpper sep s gs restarts cmd started
            (ev ++ [.cleanBefore, .log .warn "Failed to clean before running the process"] ++
              [.log .warn "Failed to start"] ++ respawnEvents false)) ∧
    superviseLoop sortSlice toUpper sep s (g :: gs) 0 cmd started ev =
      { started := some (some err), ending := .firstStartFailed, restarts := 0, cmd := cmd,
        events := ev ++
          [.cleanBefore, .log .warn "Failed to clean before running the process"] ++
          [.log .warn "Failed to start", .sendStarted (some err)] } := by
  have ha := @attempt_clean_failure sortSlice toUpper sep s g cmd err hfn hcl
  exact ⟨fun hr => superviseLoop_failed_later ha hr, superviseLoop_failed_first ha⟩

/-- C14 amended, at a failing clean-up after one successful start. -/
theorem superviseLoop_clean_failure_witness :
    superviseLoop insertionSort asciiToUpper ':' cleaningSupervisor [genCleanFails] 1 none (some none) [] =
      { started := some none, ending := .running, restarts := 1, cmd := none,
        events := [.cleanBefore, .log .warn "Failed to clean before running the process",
          .log .warn "Failed to start", .log .info "respawning", .respawnDelay,
          .log .debug "respawning"] } := by
  rw [(superviseLoop_clean_failure insertionSort asciiToUpper ':' cleaningSupervisor genCleanFails [] 1 none
    (some none) [] (.base (.other 5)) rfl rfl).1 (by decide)]
  rfl

/-! ## Unsupported platforms -/

theorem launch_returns {w : World} {s1 : Supervisor} {ev : List Event} {g : Generation}
    {gs : List Generation} (hg : w.gens = g :: gs)
    (henv : getEnv w.sortSlice w.toUpper w.pathListSeparator g.environ s1.DataDir s1.Name
      s1.KeepEnvPrefix ≠ none) :
    ∃ r, launch w s1 ev = .returned r := by
  unfold launch
  simp only []
  rw [hg]
  cases ha : attempt w.sortSlice w.toUpper w.pathListSeparator
      { s1 with cancel := some (), done := some false } g s1.cmd with
  | panicked ev1 => exact absurd (attempt_panicked ha) henv
  | failed err cmd1 ev1 =>
    rw [superviseLoop_failed_first ha]
    exact ⟨_, rfl⟩
  | started c pid ev1 =>
    have hst : (superviseLoop w.sortSlice w.toUpper w.pathListSeparator
        { s1 with cancel := some (), done := some false } (g :: gs) 0 s1.cmd none
        (ev ++ [.log .info "Starting to supervise"])).started = some none := by
      rw [superviseLoop_started ha]
      rcases hp : processWaitQuit g.wait with ⟨_ | b, ev3⟩
      · rfl
      · cases b with
        | true => rfl
        | false =>
          simp only []
          by_cases hc : g.respawnCanceled = true
          · rw [if_pos hc]; rfl
          · rw [if_neg hc]
            exact superviseLoop_started_later _ _ _ _ _ _ _ _ _ (by omega)
    rw [hst]
    exact ⟨_, rfl⟩

/-- C16 as stated fails: the process of the PID file is eligible and the graceful-termination
request fails with `errors.ErrUnsupported`; `Supervise` does not return that error: it
logs the warning, starts the loop and the process, and returns nil. -/
theorem Supervise_unsupported_kill_counterexample :
    (maybeKillPidFile sampleSupervisor.BinPath unsupportedKillWorld.ticks
        unsupportedKillWorld.pidFile unsupportedKillWorld.openPID []) =
      (some (.wrap "failed to kill PID from PID file"
          (.wrap "failed to request graceful termination" (.base .ErrUnsupported))),
        [.openPID 4000, .cmdline, .environ, .requestGracefulShutdown, .close]) ∧
    ∃ r, Supervise unsupportedKillWorld sampleSupervisor = .returned r ∧
      r.err = none ∧ r.loop = some .running ∧
      Event.log .warn "Old process cannot be terminated" ∈ r.events ∧
      Event.start sampleSupervisor.BinPath ∈ r.events := by
  refine ⟨by decide, _, rfl, rfl, rfl, ?_, ?_⟩
  · decide
  · decide

/-- C16, amended: on a supervisor that is not started, an error of the reconciliation
(`maybeKillPidFile`) that matches `errors.ErrUnsupported` is tolerated wherever it arises, the
graceful-termination request and the forceful kill included: `Supervise` logs a warning and goes
on to launch the loop, and returns once the first generation is attempted; any other error of
the reconciliation is returned, no loop is launched and the cancel function stays unset. -/
theorem Supervise_reconcile_error (w : World) (s : Supervisor) (err : GoError)
    (hc : s.cancel = none)
    (hrec : (maybeKillPidFile s.BinPath w.ticks w.pidFile w.openPID []).1 = some err) :
    (err.is .ErrUnsupported = false →
      Supervise w s = .returned
        { err := some err, s := prepare s,
          events := (maybeKillPidFile s.BinPath w.ticks w.pidFile w.openPID []).2.map
            Event.reconcile,
          loop := none } ∧ (prepare s).cancel = none) ∧
    (err.is .ErrUnsupported = true →
      Supervise w s = launch w (prepare s)
        ((maybeKillPidFile s.BinPath w.ticks w.pidFile w.openPID []).2.map Event.reconcile ++
          [.log .warn "Old process cannot be terminated"]) ∧
      ∀ g gs, w.gens = g :: gs →
        getEnv w.sortSlice w.toUpper w.pathListSeparator g.environ s.DataDir s.Name s.KeepEnvPrefix
          ≠ none →
        ∃ r, Supervise w s = .returned r ∧ r.loop ≠ none ∧ r.s.cancel = some ()) := by
  have hnc : ¬ s.cancel ≠ none := fun h => h hc
  have hb : (prepare s).BinPath = s.BinPath := rfl
  constructor
  · intro hu
    refine ⟨?_, hc⟩
    unfold Supervise
    rw [if_neg hnc]
    simp only [hb, hrec, fatalError, hu]
    rfl
  · intro hu
    have heq : Supervise w s = launch w (prepare s)
        ((maybeKillPidFile s.BinPath w.ticks w.pidFile w.openPID []).2.map Event.reconcile ++
          [.log .warn "Old process cannot be terminated"]) := by
      unfold Supervise
      rw [if_neg hnc]
      simp only [hb, hrec, fatalError, hu]
      rfl
    refine ⟨heq, ?_⟩
    intro g gs hg henv
    obtain ⟨r, hr⟩ := @launch_returns w (prepare s)
      ((maybeKillPidFile s.BinPath w.ticks w.pidFile w.openPID []).2.map Event.reconcile ++
          [.log .warn "Old process cannot be terminated"]) g gs hg henv
    obtain ⟨_, h2, h3, _⟩ := launch_returned hr
    exact ⟨r, heq.trans hr, h3, h2⟩

/-- C16 amended, at the process whose graceful-termination request is unsupported. -/
theorem Supervise_reconcile_error_witness :
    ∃ r, Supervise unsupportedKillWorld sampleSupervisor = .returned r ∧ r.loop ≠ none ∧
      r.s.cancel = some () :=
  (Supervise_reconcile_error unsupportedKillWorld sampleSupervisor
    (.wrap "failed to kill PID from PID file"
      (.wrap "failed to request graceful termination" (.base .ErrUnsupported)))
    rfl (by decide)).2 rfl |>.2 genOk [] rfl (by decide)

end K0s
